import Mathlib

/-!
Verification of the TransJLC conversion core: filename classification
(patterns.rs), Gerber content transformation (gerber.rs), the conversion
pipeline (converter.rs) and the hybrid-encryption artifact layout
(colorful/encrypt.rs), shallowly embedded over lists of characters.

Rust strings are modelled as lists of characters; each concrete regular
expression of the source is modelled by an equivalent executable matcher,
documented at its definition.
-/

set_option maxHeartbeats 1000000
set_option maxRecDepth 40000

namespace TransJlc

/-- Strings of the Rust source are modelled as lists of characters. -/
abbrev Str := List Char

/-- Boolean test that the list suf is a suffix of s; models Rust
str::ends_with. -/
def endsWithL (suf s : Str) : Bool := decide (suf <:+ s)

/-- Boolean test that p is a prefix of s; models Rust str::starts_with and
anchored regex matching. -/
def startsWithL (p s : Str) : Bool := decide (p <+: s)

/-- Boolean substring test; models Rust str::contains. -/
def containsL (pat s : Str) : Bool := decide (pat <:+: s)

/-- Lowercasing of a string, character by character; models Rust
str::to_lowercase on ASCII input (the only input the matched filenames
and patterns use). -/
def lowerL (s : Str) : Str := s.map Char.toLower

/-- The character of a single decimal digit; digitChar 3 is the character 3. -/
def digitChar (d : Nat) : Char := Char.ofNat (48 + d)

/-- Fuel-driven digit expansion (structural recursion so that concrete
instances compute inside the kernel); the fuel always suffices because
dividing by ten strictly decreases a positive number. -/
def natDigitsAux : Nat → Nat → Str
  | 0, _ => []
  | fuel + 1, n =>
    if n < 10 then [digitChar n] else natDigitsAux fuel (n / 10) ++ [digitChar (n % 10)]

/-- Decimal representation of a natural number as a list of digit
characters, most significant first; models Rust Display formatting of an
unsigned integer. -/
def natDigitsStr (n : Nat) : Str := natDigitsAux (n + 1) n

theorem natDigitsAux_irrel (n : Nat) : ∀ (f1 f2 : Nat), n < f1 → n < f2 →
    natDigitsAux f1 n = natDigitsAux f2 n := by
  induction n using Nat.strong_induction_on with
  | _ n ih =>
    intro f1 f2 h1 h2
    match f1, f2 with
    | g1 + 1, g2 + 1 =>
      rw [natDigitsAux, natDigitsAux]
      by_cases h : n < 10
      · rw [if_pos h, if_pos h]
      · rw [if_neg h, if_neg h]
        have hd : n / 10 < n := Nat.div_lt_self (by omega) (by omega)
        rw [ih (n / 10) hd g1 g2 (by omega) (by omega)]

theorem natDigitsStr_unfold (n : Nat) :
    natDigitsStr n =
      if n < 10 then [digitChar n] else natDigitsStr (n / 10) ++ [digitChar (n % 10)] := by
  rw [natDigitsStr, natDigitsAux]
  by_cases h : n < 10
  · rw [if_pos h, if_pos h]
  · rw [if_neg h, if_neg h]
    have hd : n / 10 < n := Nat.div_lt_self (by omega) (by omega)
    rw [natDigitsAux_irrel (n / 10) n (n / 10 + 1) (by omega) (by omega)]
    rfl

/-- Numeric value of a list of digit characters; models Rust
str::parse on an all-digit string (ignoring overflow, handled separately). -/
def digitsVal (s : Str) : Nat := s.foldl (fun a c => a * 10 + (c.toNat - 48)) 0

/-- Models Rust str::parse::<u32> on a regex capture: succeeds on a
nonempty all-digit string whose value fits in 32 bits. -/
def parseU32 (s : Str) : Option Nat :=
  if s ≠ [] ∧ s.all Char.isDigit ∧ digitsVal s < 2 ^ 32 then some (digitsVal s)
  else none

theorem digitChar_toNat {d : Nat} (h : d < 10) : (digitChar d).toNat = 48 + d := by
  interval_cases d <;> rfl

theorem isDigit_toNat {c : Char} (h : c.isDigit = true) : 48 ≤ c.toNat ∧ c.toNat ≤ 57 := by
  simp [Char.isDigit, Char.le_def] at h
  exact ⟨h.1, h.2⟩

theorem digitChar_isDigit {d : Nat} (h : d < 10) : (digitChar d).isDigit = true := by
  interval_cases d <;> rfl

theorem digitsVal_append (xs ys : Str) :
    digitsVal (xs ++ ys) = (ys.foldl (fun a c => a * 10 + (c.toNat - 48)) (digitsVal xs)) := by
  simp [digitsVal, List.foldl_append]

theorem digitsVal_snoc (xs : Str) (c : Char) :
    digitsVal (xs ++ [c]) = 10 * digitsVal xs + (c.toNat - 48) := by
  simp [digitsVal_append, List.foldl]
  omega

theorem natDigitsStr_val (n : Nat) : digitsVal (natDigitsStr n) = n := by
  induction n using Nat.strong_induction_on with
  | _ n ih =>
    by_cases h : n < 10
    · rw [natDigitsStr_unfold, if_pos h]
      simp [digitsVal, digitChar_toNat h]
    · rw [natDigitsStr_unfold, if_neg h, digitsVal_snoc,
        ih (n / 10) (Nat.div_lt_self (by omega) (by omega)),
        digitChar_toNat (Nat.mod_lt n (by omega))]
      omega

theorem natDigitsStr_all_digits (n : Nat) : ∀ c ∈ natDigitsStr n, c.isDigit = true := by
  induction n using Nat.strong_induction_on with
  | _ n ih =>
    by_cases h : n < 10
    · rw [natDigitsStr_unfold, if_pos h]
      intro c hc
      simp at hc
      subst hc
      exact digitChar_isDigit h
    · rw [natDigitsStr_unfold, if_neg h]
      intro c hc
      rcases List.mem_append.mp hc with h1 | h2
      · exact ih (n / 10) (Nat.div_lt_self (by omega) (by omega)) c h1
      · simp at h2
        subst h2
        exact digitChar_isDigit (Nat.mod_lt n (by omega))

theorem natDigitsStr_ne_nil (n : Nat) : natDigitsStr n ≠ [] := by
  by_cases h : n < 10
  · rw [natDigitsStr_unfold, if_pos h]
    simp
  · rw [natDigitsStr_unfold, if_neg h]
    simp

theorem natDigitsStr_length_le {n k : Nat} (hk : 1 ≤ k) (h : n < 10 ^ k) :
    (natDigitsStr n).length ≤ k := by
  induction n using Nat.strong_induction_on generalizing k with
  | _ n ih =>
    by_cases hn : n < 10
    · rw [natDigitsStr_unfold, if_pos hn]
      simpa using hk
    · rw [natDigitsStr_unfold, if_neg hn]
      simp only [List.length_append, List.length_cons, List.length_nil]
      have hk2 : 2 ≤ k := by
        by_contra hcon
        have hk1 : k = 1 := by omega
        subst hk1
        simp at h
        omega
      have hdiv : n / 10 < 10 ^ (k - 1) := by
        have hpow : 10 ^ (k - 1) * 10 = 10 ^ k := by
          have hke : k - 1 + 1 = k := by omega
          calc 10 ^ (k - 1) * 10 = 10 ^ (k - 1 + 1) := by ring
            _ = 10 ^ k := by rw [hke]
        omega
      have := ih (n / 10) (Nat.div_lt_self (by omega) (by omega)) (k := k - 1) (by omega) hdiv
      omega

theorem natDigitsStr_length_ge2 {n : Nat} (h : 10 ≤ n) : 2 ≤ (natDigitsStr n).length := by
  have hn : ¬ n < 10 := by omega
  rw [natDigitsStr_unfold, if_neg hn]
  have h1 : natDigitsStr (n / 10) ≠ [] := natDigitsStr_ne_nil (n / 10)
  have h2 : 1 ≤ (natDigitsStr (n / 10)).length := by
    cases hh : natDigitsStr (n / 10) with
    | nil => exact absurd hh h1
    | cons a t => simp
  simp only [List.length_append, List.length_cons, List.length_nil]
  omega

theorem digitsVal_lt (s : Str) (hd : ∀ c ∈ s, c.isDigit = true) :
    digitsVal s < 10 ^ s.length := by
  induction s using List.reverseRecOn with
  | nil => simp [digitsVal]
  | append_singleton xs c ih =>
    rw [digitsVal_snoc]
    have hc : c.isDigit = true := hd c (by simp)
    have hxs : ∀ x ∈ xs, x.isDigit = true := fun x hx => hd x (by simp [hx])
    have h1 := ih hxs
    have hc9 : c.toNat - 48 < 10 := by
      have := isDigit_toNat hc
      omega
    simp only [List.length_append, List.length_cons, List.length_nil, pow_succ]
    calc 10 * digitsVal xs + (c.toNat - 48) < 10 * digitsVal xs + 10 := by omega
      _ = 10 * (digitsVal xs + 1) := by ring
      _ ≤ 10 * 10 ^ xs.length := by
        have h2 : digitsVal xs + 1 ≤ 10 ^ xs.length := h1
        omega
      _ = 10 ^ (xs.length + 0) * 10 := by ring
      _ = 10 ^ (xs.length) * 10 := by rw [Nat.add_zero]

/-! ## Layer model (src/patterns.rs)

LayerType mirrors the Rust enum; the u32 inner-layer number is carried as
a natural number, with the 32-bit bound made explicit where parsing in the
source can fail by overflow. -/

/-- Models enum LayerType of src/patterns.rs. -/
inductive LayerType where
  | NpthThrough
  | PthThrough
  | PthThroughVia
  | BottomSilkscreen
  | BottomSoldermask
  | BottomPasteMask
  | BottomCopper
  | TopSilkscreen
  | TopSoldermask
  | TopPasteMask
  | TopCopper
  | BoardOutline
  | InnerLayer (n : Nat)
  | Other
deriving DecidableEq, Repr

/-- Models LayerType::to_jlc_filename of src/patterns.rs. -/
def to_jlc_filename : LayerType → Str
  | .NpthThrough => "Drill_NPTH_Through.DRL".data
  | .PthThrough => "Drill_PTH_Through.DRL".data
  | .PthThroughVia => "Drill_PTH_Through_Via.DRL".data
  | .BottomSilkscreen => "Gerber_BottomSilkscreenLayer.GBO".data
  | .BottomSoldermask => "Gerber_BottomSolderMaskLayer.GBS".data
  | .BottomPasteMask => "Gerber_BottomPasteMaskLayer.GBP".data
  | .BottomCopper => "Gerber_BottomLayer.GBL".data
  | .TopSilkscreen => "Gerber_TopSilkscreenLayer.GTO".data
  | .TopSoldermask => "Gerber_TopSolderMaskLayer.GTS".data
  | .TopPasteMask => "Gerber_TopPasteMaskLayer.GTP".data
  | .TopCopper => "Gerber_TopLayer.GTL".data
  | .BoardOutline => "Gerber_BoardOutlineLayer.GKO".data
  | .InnerLayer n => "Gerber_InnerLayer".data ++ natDigitsStr n ++ ".G".data ++ natDigitsStr n
  | .Other => "Unknown".data

/-- Truth of the matches! test on drill layer kinds used in
match_filename and should_process_gerber of the source. -/
def isDrillType : LayerType → Bool
  | .NpthThrough | .PthThrough | .PthThroughVia => true
  | _ => false

/-- A compiled filename rule: the Boolean matcher of the regex and, for
inner-layer rules, the first capture group parsing as u32 (the loop over
capture groups in extract_inner_layer_number). -/
structure Pattern where
  isMatch : Str → Bool
  firstNumGroup : Str → Option Nat

/-- Models struct EdaPatterns of src/patterns.rs; the HashMap is embedded
as an association list keyed by LayerType, in insertion order. -/
structure EdaPatterns where
  name : Str
  patterns : List (LayerType × List Pattern)

/-- Models EdaPatterns::add_pattern: push onto the entry of the layer
type, creating it when absent. -/
def EdaPatterns.add_pattern (ps : EdaPatterns) (lt : LayerType) (p : Pattern) : EdaPatterns :=
  { ps with patterns :=
      if ps.patterns.any (fun e => e.1 = lt) then
        ps.patterns.map (fun e => if e.1 = lt then (e.1, e.2 ++ [p]) else e)
      else ps.patterns ++ [(lt, [p])] }

/-- Lookup of the rule list of a layer type; models
self.patterns.get(&layer_type), with a missing entry read as the empty
list (the source skips the block when get returns None, which matches an
empty loop). -/
def EdaPatterns.getPats (ps : EdaPatterns) (lt : LayerType) : List Pattern :=
  match ps.patterns.find? (fun e => e.1 = lt) with
  | some e => e.2
  | none => []

/-- Case-insensitive test for the drill-file extension; models
filename.to_lowercase().ends_with(".drl"). -/
def endsWithDrl (s : Str) : Bool := endsWithL ".drl".data (lowerL s)

/-- Models the fallback regex (one or more digits) of
extract_inner_layer_number: the leftmost maximal run of digit characters. -/
def firstDigitRun : Str → Option Str
  | [] => none
  | c :: rest =>
    if c.isDigit then some (c :: rest.takeWhile Char.isDigit) else firstDigitRun rest

/-- Models EdaPatterns::extract_inner_layer_number of src/patterns.rs:
first numeric capture group of the matched rule, else the first digit run
of the filename, else no match. -/
def extract_inner_layer_number (p : Pattern) (filename : Str) : Option LayerType :=
  match p.firstNumGroup filename with
  | some n => some (.InnerLayer n)
  | none =>
    match firstDigitRun filename with
    | some run =>
      match parseU32 run with
      | some n => some (.InnerLayer n)
      | none => none
    | none => none

/-- Value returned from match_filename once a rule of the general loop
has matched: inner-layer kinds go through number extraction, every other
kind is returned as is. -/
def matchedResult (lt : LayerType) (p : Pattern) (filename : Str) : Option LayerType :=
  match lt with
  | .InnerLayer _ => extract_inner_layer_number p filename
  | _ => some lt

/-- Inner loop over the rules of one layer type in the general matching
loop of match_filename; a some result is returned from match_filename as
is (including some none when inner-layer number extraction fails). -/
def tryPats (lt : LayerType) : List Pattern → Str → Option (Option LayerType)
  | [], _ => none
  | p :: rest, filename =>
    if p.isMatch filename then some (matchedResult lt p filename)
    else tryPats lt rest filename

/-- The general (non-drill) matching loop of match_filename: iterate the
rule table, skipping drill layer types. -/
def matchLoop : List (LayerType × List Pattern) → Str → Option LayerType
  | [], _ => none
  | (lt, pats) :: rest, filename =>
    if isDrillType lt then matchLoop rest filename
    else
      match tryPats lt pats filename with
      | some r => r
      | none => matchLoop rest filename

/-- Models EdaPatterns::match_filename of src/patterns.rs: for a
drill-extension name, NPTH rules, then PTH rules, then PTH-via rules, in
that order, returning on the first match; otherwise (and when no drill
rule matched) the general loop over non-drill rule lists. -/
def EdaPatterns.match_filename (ps : EdaPatterns) (filename : Str) : Option LayerType :=
  if endsWithDrl filename then
    if (ps.getPats .NpthThrough).any (fun p => p.isMatch filename) then some .NpthThrough
    else if (ps.getPats .PthThrough).any (fun p => p.isMatch filename) then some .PthThrough
    else if (ps.getPats .PthThroughVia).any (fun p => p.isMatch filename) then
      some .PthThroughVia
    else matchLoop ps.patterns filename
  else matchLoop ps.patterns filename

/-- Claim C1: for every dialect pattern set and every filename ending in
the drill extension (case-insensitive), match_filename evaluates the NPTH
rule list first, then the PTH rule list, then the PTH-via rule list,
returning on the first rule that matches; in particular a filename
matching some NPTH rule yields NpthThrough, never PthThrough, even when a
PTH rule also matches. -/
theorem match_filename_drill_precedence (ps : EdaPatterns) (fn : Str)
    (hd : endsWithDrl fn = true) :
    ((ps.getPats .NpthThrough).any (fun p => p.isMatch fn) = true →
      ps.match_filename fn = some .NpthThrough) ∧
    ((ps.getPats .NpthThrough).any (fun p => p.isMatch fn) = false →
      (ps.getPats .PthThrough).any (fun p => p.isMatch fn) = true →
      ps.match_filename fn = some .PthThrough) ∧
    ((ps.getPats .NpthThrough).any (fun p => p.isMatch fn) = false →
      (ps.getPats .PthThrough).any (fun p => p.isMatch fn) = false →
      (ps.getPats .PthThroughVia).any (fun p => p.isMatch fn) = true →
      ps.match_filename fn = some .PthThroughVia) := by
  refine ⟨fun h1 => ?_, fun h1 h2 => ?_, fun h1 h2 h3 => ?_⟩
  · simp [EdaPatterns.match_filename, hd, h1]
  · simp [EdaPatterns.match_filename, hd, h1, h2]
  · simp [EdaPatterns.match_filename, hd, h1, h2, h3]

theorem extract_inner_shape (p : Pattern) (fn : Str) (lt : LayerType)
    (h : extract_inner_layer_number p fn = some lt) : ∃ n, lt = .InnerLayer n := by
  unfold extract_inner_layer_number at h
  rcases hg : p.firstNumGroup fn with _ | n
  · rw [hg] at h
    dsimp only at h
    rcases hrun : firstDigitRun fn with _ | run
    · rw [hrun] at h
      dsimp only at h
      exact absurd h (by simp)
    · rw [hrun] at h
      dsimp only at h
      rcases hp : parseU32 run with _ | n
      · rw [hp] at h
        dsimp only at h
        exact absurd h (by simp)
      · rw [hp] at h
        dsimp only at h
        injection h with h
        exact ⟨n, h.symm⟩
  · rw [hg] at h
    dsimp only at h
    injection h with h
    exact ⟨n, h.symm⟩

theorem matchedResult_not_drill (lt : LayerType) (p : Pattern) (fn : Str) (lt2 : LayerType)
    (h : matchedResult lt p fn = some lt2) (hlt : isDrillType lt = false) :
    isDrillType lt2 = false := by
  cases lt with
  | InnerLayer m =>
    simp only [matchedResult] at h
    obtain ⟨n, hn⟩ := extract_inner_shape p fn lt2 h
    subst hn
    rfl
  | NpthThrough => exact absurd hlt (by simp [isDrillType])
  | PthThrough => exact absurd hlt (by simp [isDrillType])
  | PthThroughVia => exact absurd hlt (by simp [isDrillType])
  | BottomSilkscreen => simp only [matchedResult] at h; injection h with h; subst h; rfl
  | BottomSoldermask => simp only [matchedResult] at h; injection h with h; subst h; rfl
  | BottomPasteMask => simp only [matchedResult] at h; injection h with h; subst h; rfl
  | BottomCopper => simp only [matchedResult] at h; injection h with h; subst h; rfl
  | TopSilkscreen => simp only [matchedResult] at h; injection h with h; subst h; rfl
  | TopSoldermask => simp only [matchedResult] at h; injection h with h; subst h; rfl
  | TopPasteMask => simp only [matchedResult] at h; injection h with h; subst h; rfl
  | TopCopper => simp only [matchedResult] at h; injection h with h; subst h; rfl
  | BoardOutline => simp only [matchedResult] at h; injection h with h; subst h; rfl
  | Other => simp only [matchedResult] at h; injection h with h; subst h; rfl

theorem tryPats_not_drill (lt : LayerType) (pats : List Pattern) (fn : Str)
    (r : Option LayerType) (lt2 : LayerType)
    (h : tryPats lt pats fn = some r) (hr : r = some lt2)
    (hlt : isDrillType lt = false) : isDrillType lt2 = false := by
  induction pats with
  | nil => simp [tryPats] at h
  | cons p rest ih =>
    rw [tryPats] at h
    by_cases hm : p.isMatch fn = true
    · simp only [hm, if_true] at h
      injection h with h
      subst hr
      exact matchedResult_not_drill lt p fn lt2 h hlt

    · simp only [hm, Bool.false_eq_true, if_false] at h
      exact ih h

theorem matchLoop_not_drill (table : List (LayerType × List Pattern)) (fn : Str)
    (lt : LayerType) (h : matchLoop table fn = some lt) : isDrillType lt = false := by
  induction table with
  | nil => simp [matchLoop] at h
  | cons e rest ih =>
    obtain ⟨klt, pats⟩ := e
    rw [matchLoop] at h
    by_cases hk : isDrillType klt = true
    · simp only [hk, if_true] at h
      exact ih h
    · simp only [hk, Bool.false_eq_true, if_false] at h
      cases ht : tryPats klt pats fn with
      | none =>
        rw [ht] at h
        dsimp only at h
        exact ih h
      | some r =>
        rw [ht] at h
        dsimp only at h
        exact tryPats_not_drill klt pats fn r lt ht h (by simpa using hk)

/-! ## The built-in dialect pattern sets (src/patterns.rs)

Every concrete regex of the source is embedded as an equivalent
executable matcher over lists of characters:

- a case-insensitive anchored suffix regex, optionally with an optional
  leading hyphen, is a suffix test on the lowercased name (the optional
  hyphen does not change whether a match exists);
- a case-sensitive anchored suffix regex is a plain suffix test;
- a fully anchored literal regex is string equality;
- the inner-layer regexes with a digit capture group are dedicated
  parsers defined below, whose capture is the digit run of the match. -/

/-- Matcher of a case-insensitive suffix-anchored regex. -/
def ciSuffixPat (lit : Str) : Pattern :=
  { isMatch := fun s => endsWithL lit (lowerL s), firstNumGroup := fun _ => none }

/-- Matcher of a case-sensitive suffix-anchored regex. -/
def csSuffixPat (lit : Str) : Pattern :=
  { isMatch := fun s => endsWithL lit s, firstNumGroup := fun _ => none }

/-- Matcher of a fully anchored literal regex. -/
def exactPat (lit : Str) : Pattern :=
  { isMatch := fun s => decide (s = lit), firstNumGroup := fun _ => none }

/-- Parser of the KiCad inner-copper regex (hyphen, In, digit group,
underscore Cu dot gbr, end of string): the digit capture is the maximal
digit run immediately before the literal tail, and the characters before
that run must end in the hyphen-In marker. -/
def kicadInnerParse (s : Str) : Option Str :=
  if endsWithL "_Cu.gbr".data s then
    let body := s.take (s.length - 7)
    let ds := (body.reverse.takeWhile Char.isDigit).reverse
    if ds ≠ [] ∧ endsWithL "-In".data (body.take (body.length - ds.length)) then some ds
    else none
  else none

/-- The KiCad inner-copper rule. -/
def kicadInnerPat : Pattern :=
  { isMatch := fun s => (kicadInnerParse s).isSome,
    firstNumGroup := fun s => (kicadInnerParse s).bind parseU32 }

/-- Parser of the Protel inner-layer regexes (case-insensitive dot,
marker letter, digit group, end of string); c0 is the marker letter (g or
l). Digits are unchanged by lowercasing, so the capture is read off the
lowercased name. -/
def protelInnerParse (c0 : Char) (s : Str) : Option Str :=
  let lo := lowerL s
  let ds := (lo.reverse.takeWhile Char.isDigit).reverse
  if ds ≠ [] ∧ endsWithL ['.', c0] (lo.take (lo.length - ds.length)) then some ds
  else none

/-- A Protel inner-layer rule for marker letter c0. -/
def protelInnerPat (c0 : Char) : Pattern :=
  { isMatch := fun s => (protelInnerParse c0 s).isSome,
    firstNumGroup := fun s => (protelInnerParse c0 s).bind parseU32 }

/-- Parser of the JLC inner-layer regex (anchored Gerber_InnerLayer,
digit group, dot G, digit group, end of string), returning both captures. -/
def jlcInnerParse (s : Str) : Option (Str × Str) :=
  if startsWithL "Gerber_InnerLayer".data s then
    let rest := s.drop 17
    let ds1 := rest.takeWhile Char.isDigit
    if ds1 ≠ [] ∧ startsWithL ".G".data (rest.drop ds1.length) then
      let rest2 := rest.drop (ds1.length + 2)
      let ds2 := rest2.takeWhile Char.isDigit
      if ds2 ≠ [] ∧ rest2.drop ds2.length = [] then some (ds1, ds2) else none
    else none
  else none

/-- The JLC inner-layer rule; the first numeric capture group is the
first of the two captures that parses as u32. -/
def jlcInnerPat : Pattern :=
  { isMatch := fun s => (jlcInnerParse s).isSome,
    firstNumGroup := fun s =>
      match jlcInnerParse s with
      | some (ds1, ds2) =>
        match parseU32 ds1 with
        | some n => some n
        | none => parseU32 ds2
      | none => none }

/-- Models PatternMatcher::create_kicad_patterns of src/patterns.rs, rule
for rule in source order; the two NPTH regexes (and the two PTH regexes)
differ only by an optional hyphen and therefore share one matcher each. -/
def create_kicad_patterns : EdaPatterns :=
  EdaPatterns.mk "KiCad".data []
    |>.add_pattern .NpthThrough (ciSuffixPat "npth.drl".data)
    |>.add_pattern .NpthThrough (ciSuffixPat "npth.drl".data)
    |>.add_pattern .PthThrough (ciSuffixPat "pth.drl".data)
    |>.add_pattern .PthThrough (ciSuffixPat "pth.drl".data)
    |>.add_pattern .PthThrough (ciSuffixPat ".drl".data)
    |>.add_pattern .TopCopper (csSuffixPat "-F_Cu.gbr".data)
    |>.add_pattern .BottomCopper (csSuffixPat "-B_Cu.gbr".data)
    |>.add_pattern (.InnerLayer 0) kicadInnerPat
    |>.add_pattern .TopSoldermask (csSuffixPat "-F_Mask.gbr".data)
    |>.add_pattern .BottomSoldermask (csSuffixPat "-B_Mask.gbr".data)
    |>.add_pattern .TopPasteMask (csSuffixPat "-F_Paste.gbr".data)
    |>.add_pattern .BottomPasteMask (csSuffixPat "-B_Paste.gbr".data)
    |>.add_pattern .TopSilkscreen (csSuffixPat "-F_Silkscreen.gbr".data)
    |>.add_pattern .BottomSilkscreen (csSuffixPat "-B_Silkscreen.gbr".data)
    |>.add_pattern .BoardOutline (csSuffixPat "-Edge_Cuts.gbr".data)

/-- Models PatternMatcher::create_protel_patterns of src/patterns.rs,
rule for rule in source order. -/
def create_protel_patterns : EdaPatterns :=
  EdaPatterns.mk "Protel".data []
    |>.add_pattern .TopCopper (ciSuffixPat ".gtl".data)
    |>.add_pattern .BottomCopper (ciSuffixPat ".gbl".data)
    |>.add_pattern .TopSoldermask (ciSuffixPat ".gts".data)
    |>.add_pattern .BottomSoldermask (ciSuffixPat ".gbs".data)
    |>.add_pattern .TopPasteMask (ciSuffixPat ".gtp".data)
    |>.add_pattern .BottomPasteMask (ciSuffixPat ".gbp".data)
    |>.add_pattern .TopSilkscreen (ciSuffixPat ".gto".data)
    |>.add_pattern .BottomSilkscreen (ciSuffixPat ".gbo".data)
    |>.add_pattern .BoardOutline (ciSuffixPat ".gko".data)
    |>.add_pattern .BoardOutline (ciSuffixPat ".gm1".data)
    |>.add_pattern .BoardOutline (ciSuffixPat ".outline".data)
    |>.add_pattern .BoardOutline (ciSuffixPat ".oln".data)
    |>.add_pattern (.InnerLayer 0) (protelInnerPat 'g')
    |>.add_pattern (.InnerLayer 0) (protelInnerPat 'l')
    |>.add_pattern .PthThrough (ciSuffixPat ".drl".data)
    |>.add_pattern .PthThrough (ciSuffixPat ".txt".data)
    |>.add_pattern .NpthThrough (ciSuffixPat "npth.drl".data)
    |>.add_pattern .NpthThrough (ciSuffixPat "-npth.drl".data)
    |>.add_pattern .Other (ciSuffixPat ".drr".data)
    |>.add_pattern .Other (ciSuffixPat ".rep".data)
    |>.add_pattern .Other (ciSuffixPat ".rpt".data)

/-- Models PatternMatcher::create_jlc_patterns of src/patterns.rs, rule
for rule in source order. -/
def create_jlc_patterns : EdaPatterns :=
  EdaPatterns.mk "JLC".data []
    |>.add_pattern .NpthThrough (exactPat "Drill_NPTH_Through.DRL".data)
    |>.add_pattern .PthThrough (exactPat "Drill_PTH_Through.DRL".data)
    |>.add_pattern .PthThroughVia (exactPat "Drill_PTH_Through_Via.DRL".data)
    |>.add_pattern .BottomSilkscreen (exactPat "Gerber_BottomSilkscreenLayer.GBO".data)
    |>.add_pattern .BottomSoldermask (exactPat "Gerber_BottomSolderMaskLayer.GBS".data)
    |>.add_pattern .BottomPasteMask (exactPat "Gerber_BottomPasteMaskLayer.GBP".data)
    |>.add_pattern .BottomCopper (exactPat "Gerber_BottomLayer.GBL".data)
    |>.add_pattern .TopSilkscreen (exactPat "Gerber_TopSilkscreenLayer.GTO".data)
    |>.add_pattern .TopSoldermask (exactPat "Gerber_TopSolderMaskLayer.GTS".data)
    |>.add_pattern .TopPasteMask (exactPat "Gerber_TopPasteMaskLayer.GTP".data)
    |>.add_pattern .TopCopper (exactPat "Gerber_TopLayer.GTL".data)
    |>.add_pattern .BoardOutline (exactPat "Gerber_BoardOutlineLayer.GKO".data)
    |>.add_pattern (.InnerLayer 0) jlcInnerPat

/-! ## Dialect auto-detection (src/patterns.rs) -/

/-- Models std::mem::discriminant on LayerType: collapses all inner-layer
numbers into one value. -/
def layerDisc : LayerType → Nat
  | .NpthThrough => 0
  | .PthThrough => 1
  | .PthThroughVia => 2
  | .BottomSilkscreen => 3
  | .BottomSoldermask => 4
  | .BottomPasteMask => 5
  | .BottomCopper => 6
  | .TopSilkscreen => 7
  | .TopSoldermask => 8
  | .TopPasteMask => 9
  | .TopCopper => 10
  | .BoardOutline => 11
  | .InnerLayer _ => 12
  | .Other => 13

/-- The set of discriminants of layer types matched from the file list,
as a duplicate-free list; models the matched_types HashSet built by
EdaPatterns::can_handle_files. -/
def matchedDiscs (ps : EdaPatterns) (filenames : List Str) : List Nat :=
  (filenames.filterMap (fun f => (ps.match_filename f).map layerDisc)).dedup

/-- The acceptance threshold min_layer_types of can_handle_files. -/
def min_layer_types : Nat := 3

/-- Models EdaPatterns::can_handle_files of src/patterns.rs: accept when
at least min_layer_types distinct layer-type discriminants were matched. -/
def EdaPatterns.can_handle_files (ps : EdaPatterns) (filenames : List Str) : Bool :=
  decide (min_layer_types ≤ (matchedDiscs ps filenames).length)

/-- The error variant returned by auto-detection; models
TransJlcError::NoMatchingPattern of src/error.rs (the only variant the
detection path produces). -/
inductive TransJlcError where
  | NoMatchingPattern
deriving DecidableEq, Repr

/-- The fixed priority order patterns_to_test of
PatternMatcher::auto_detect_eda. -/
def patterns_to_test : List EdaPatterns :=
  [create_kicad_patterns, create_protel_patterns, create_jlc_patterns]

/-- The detection loop of PatternMatcher::auto_detect_eda: first pattern
set accepting the file list wins, else the no-match error. -/
def detectLoop : List EdaPatterns → List Str → Except TransJlcError EdaPatterns
  | [], _ => .error .NoMatchingPattern
  | p :: rest, filenames =>
    if p.can_handle_files filenames then .ok p else detectLoop rest filenames

/-- Models PatternMatcher::auto_detect_eda of src/patterns.rs on the
extracted file names. -/
def auto_detect_eda (filenames : List Str) : Except TransJlcError EdaPatterns :=
  detectLoop patterns_to_test filenames

theorem detectLoop_all_fail (l : List EdaPatterns) (files : List Str)
    (h : ∀ ps ∈ l, ps.can_handle_files files = false) :
    detectLoop l files = .error .NoMatchingPattern := by
  induction l with
  | nil => rfl
  | cons p rest ih =>
    rw [detectLoop]
    have hp : p.can_handle_files files = false := h p (by simp)
    simp only [hp, Bool.false_eq_true, if_false]
    exact ih (fun ps hps => h ps (by simp [hps]))

/-- Claim C2: auto-detection tries the known dialects in the fixed order
KiCad, Protel, JLC, accepting a dialect exactly when it classifies at
least min_layer_types (3) distinct layer-kind discriminants (variants,
not files); on a file list where every known dialect classifies fewer
than 3 distinct variants it returns the no-matching-pattern error. -/
theorem auto_detect_eda_below_threshold (files : List Str)
    (h : ∀ ps ∈ patterns_to_test, (matchedDiscs ps files).length < min_layer_types) :
    auto_detect_eda files = Except.error TransJlcError.NoMatchingPattern := by
  apply detectLoop_all_fail
  intro ps hps
  have := h ps hps
  simp only [EdaPatterns.can_handle_files, decide_eq_false_iff_not]
  omega

/-- Witness for C2 at a concrete file list on which every dialect
classifies at most one distinct layer kind. -/
theorem auto_detect_eda_below_threshold_witness :
    (∀ ps ∈ patterns_to_test,
      (matchedDiscs ps ["board-F_Cu.gbr".data, "readme.doc".data]).length < min_layer_types) ∧
    auto_detect_eda ["board-F_Cu.gbr".data, "readme.doc".data] =
      Except.error TransJlcError.NoMatchingPattern :=
  ⟨by decide, auto_detect_eda_below_threshold _ (by decide)⟩

/-- Claim C10: for every dialect pattern set and every filename that does
not end in the drill extension (case-insensitive), match_filename never
returns a drill layer kind: the drill rule lists are consulted only for
drill-extension names, and the general loop skips drill layer types, so a
drill rule written against another extension can never fire. -/
theorem match_filename_nondrill_never_drill (ps : EdaPatterns) (fn : Str) (lt : LayerType)
    (hd : endsWithDrl fn = false) (hm : ps.match_filename fn = some lt) :
    isDrillType lt = false := by
  rw [EdaPatterns.match_filename] at hm
  simp only [hd, Bool.false_eq_true, if_false] at hm
  exact matchLoop_not_drill ps.patterns fn lt hm

/-- Witness for C1: under the KiCad dialect, a drill filename that
matches both an NPTH rule and the looser generic PTH rule is classified
NpthThrough. -/
theorem match_filename_drill_precedence_witness :
    endsWithDrl "test-NPTH.drl".data = true ∧
    (create_kicad_patterns.getPats .NpthThrough).any
      (fun p => p.isMatch "test-NPTH.drl".data) = true ∧
    (create_kicad_patterns.getPats .PthThrough).any
      (fun p => p.isMatch "test-NPTH.drl".data) = true ∧
    create_kicad_patterns.match_filename "test-NPTH.drl".data = some .NpthThrough :=
  ⟨by decide, by decide, by decide,
    (match_filename_drill_precedence create_kicad_patterns "test-NPTH.drl".data
      (by decide)).1 (by decide)⟩

/-- Witness for C10: under the Protel dialect, which has a PTH rule for
the txt extension, a non-drill-extension filename still never classifies
as a drill kind. -/
theorem match_filename_nondrill_never_drill_witness :
    endsWithDrl "board.gtl".data = false ∧
    create_protel_patterns.match_filename "board.gtl".data = some .TopCopper ∧
    isDrillType .TopCopper = false :=
  ⟨by decide, by decide,
    match_filename_nondrill_never_drill create_protel_patterns "board.gtl".data .TopCopper
      (by decide) (by decide)⟩

/-! ## Inner-layer round trip (claim C8) -/

theorem toLower_digit {c : Char} (hc : c.isDigit = true) : c.toLower = c := by
  have h := isDigit_toNat hc
  unfold Char.toLower
  exact if_neg (by omega)

theorem endsWithDrl_false_of_last_digit (s : Str) (c : Char) (hc : c.isDigit = true)
    (hlast : s.getLast? = some c) : endsWithDrl s = false := by
  rw [endsWithDrl, endsWithL]
  simp only [decide_eq_false_iff_not]
  intro hsuf
  obtain ⟨t, ht⟩ := hsuf
  have h1 : (lowerL s).getLast? = some 'l' := by
    rw [← ht, List.getLast?_append]
    rfl
  rw [lowerL, List.getLast?_map, hlast] at h1
  simp only [Option.map_some'] at h1
  injection h1 with h1
  rw [toLower_digit hc] at h1
  have h2 := isDigit_toNat hc
  rw [h1] at h2
  simp at h2

theorem takeWhile_all_append_not {p : Char → Bool} (xs : Str) (y : Char) (ys : Str)
    (hxs : ∀ x ∈ xs, p x = true) (hy : p y = false) :
    (xs ++ y :: ys).takeWhile p = xs := by
  induction xs with
  | nil => simp [List.takeWhile_cons, hy]
  | cons a t ih =>
    have ha : p a = true := hxs a (by simp)
    simp only [List.cons_append, List.takeWhile_cons, ha, if_true]
    rw [ih (fun x hx => hxs x (by simp [hx]))]

theorem parseU32_natDigitsStr {n : Nat} (h : n < 2 ^ 32) : parseU32 (natDigitsStr n) = some n := by
  rw [parseU32, if_pos, natDigitsStr_val]
  refine ⟨natDigitsStr_ne_nil n, ?_, ?_⟩
  · rw [List.all_eq_true]
    exact natDigitsStr_all_digits n
  · rw [natDigitsStr_val]
    exact h

theorem jlcInnerParse_roundtrip (n : Nat) :
    jlcInnerParse ("Gerber_InnerLayer".data ++ (natDigitsStr n ++ '.' :: 'G' :: natDigitsStr n))
      = some (natDigitsStr n, natDigitsStr n) := by
  have hdig := natDigitsStr_all_digits n
  have hne := natDigitsStr_ne_nil n
  rw [jlcInnerParse]
  have hpre : startsWithL "Gerber_InnerLayer".data
      ("Gerber_InnerLayer".data ++ (natDigitsStr n ++ '.' :: 'G' :: natDigitsStr n)) = true :=
    decide_eq_true (List.prefix_append _ _)
  rw [hpre, if_pos rfl]
  have hdrop17 : ("Gerber_InnerLayer".data ++
      (natDigitsStr n ++ '.' :: 'G' :: natDigitsStr n)).drop 17
      = natDigitsStr n ++ '.' :: 'G' :: natDigitsStr n :=
    List.drop_left "Gerber_InnerLayer".data _
  rw [hdrop17]
  dsimp only
  have hds1 : (natDigitsStr n ++ '.' :: 'G' :: natDigitsStr n).takeWhile Char.isDigit
      = natDigitsStr n := takeWhile_all_append_not _ _ _ hdig rfl
  rw [hds1]
  have hdropLen : (natDigitsStr n ++ '.' :: 'G' :: natDigitsStr n).drop (natDigitsStr n).length
      = '.' :: 'G' :: natDigitsStr n := List.drop_left _ _
  rw [hdropLen]
  have hpre2 : startsWithL ".G".data ('.' :: 'G' :: natDigitsStr n) = true :=
    decide_eq_true (List.prefix_append ['.', 'G'] (natDigitsStr n))
  rw [hpre2]
  rw [if_pos ⟨hne, rfl⟩]
  have hsplit : natDigitsStr n ++ '.' :: 'G' :: natDigitsStr n
      = (natDigitsStr n ++ ['.', 'G']) ++ natDigitsStr n := by
    simp
  have hlen2 : (natDigitsStr n).length + 2 = (natDigitsStr n ++ ['.', 'G']).length := by
    simp
  rw [hsplit, hlen2, List.drop_left]
  have hds2 : (natDigitsStr n).takeWhile Char.isDigit = natDigitsStr n :=
    List.takeWhile_eq_self_iff.mpr hdig
  rw [hds2, if_pos ⟨hne, List.drop_length _⟩]

theorem gil_append_ne (suffixL lit : Str) (hne : lit.take 17 ≠ "Gerber_InnerLayer".data) :
    "Gerber_InnerLayer".data ++ suffixL ≠ lit := by
  intro h
  apply hne
  rw [← h]
  exact List.take_left "Gerber_InnerLayer".data suffixL

/-- Claim C8: for every inner-layer number n (at least 1, representable
as u32), generating the canonical filename of the inner layer and
re-parsing it with the JLC dialect recovers the same layer number. -/
theorem inner_layer_roundtrip (n : Nat) (_hpos : 1 ≤ n) (h32 : n < 2 ^ 32) :
    create_jlc_patterns.match_filename (to_jlc_filename (.InnerLayer n))
      = some (.InnerLayer n) := by
  have hdig := natDigitsStr_all_digits n
  have hne := natDigitsStr_ne_nil n
  have hfn : to_jlc_filename (.InnerLayer n)
      = "Gerber_InnerLayer".data ++ (natDigitsStr n ++ '.' :: 'G' :: natDigitsStr n) := by
    rw [to_jlc_filename]
    simp
  rw [hfn]
  -- the generated name does not carry the drill extension: it ends in a digit
  have hlastd : ∃ c, ("Gerber_InnerLayer".data ++
      (natDigitsStr n ++ '.' :: 'G' :: natDigitsStr n)).getLast? = some c ∧ c.isDigit = true := by
    refine ⟨(natDigitsStr n).getLast hne, ?_, hdig _ (List.getLast_mem hne)⟩
    rw [List.getLast?_append]
    have h1 : (natDigitsStr n ++ '.' :: 'G' :: natDigitsStr n).getLast?
        = some ((natDigitsStr n).getLast hne) := by
      rw [List.getLast?_append]
      have h2 : ('.' :: 'G' :: natDigitsStr n).getLast? = (natDigitsStr n).getLast? := by
        show (['.', 'G'] ++ natDigitsStr n).getLast? = (natDigitsStr n).getLast?
        rw [List.getLast?_append, List.getLast?_eq_getLast _ hne]
        rfl
      rw [h2, List.getLast?_eq_getLast _ hne]
      rfl
    rw [h1]
    rfl
  obtain ⟨c, hlast, hcdig⟩ := hlastd
  have hdrl : endsWithDrl ("Gerber_InnerLayer".data ++
      (natDigitsStr n ++ '.' :: 'G' :: natDigitsStr n)) = false :=
    endsWithDrl_false_of_last_digit _ c hcdig hlast
  rw [EdaPatterns.match_filename]
  rw [hdrl]
  simp only [Bool.false_eq_true, if_false]
  -- the rule table of the JLC dialect, in insertion order
  have hpats : create_jlc_patterns.patterns =
      [(LayerType.NpthThrough, [exactPat "Drill_NPTH_Through.DRL".data]),
       (LayerType.PthThrough, [exactPat "Drill_PTH_Through.DRL".data]),
       (LayerType.PthThroughVia, [exactPat "Drill_PTH_Through_Via.DRL".data]),
       (LayerType.BottomSilkscreen, [exactPat "Gerber_BottomSilkscreenLayer.GBO".data]),
       (LayerType.BottomSoldermask, [exactPat "Gerber_BottomSolderMaskLayer.GBS".data]),
       (LayerType.BottomPasteMask, [exactPat "Gerber_BottomPasteMaskLayer.GBP".data]),
       (LayerType.BottomCopper, [exactPat "Gerber_BottomLayer.GBL".data]),
       (LayerType.TopSilkscreen, [exactPat "Gerber_TopSilkscreenLayer.GTO".data]),
       (LayerType.TopSoldermask, [exactPat "Gerber_TopSolderMaskLayer.GTS".data]),
       (LayerType.TopPasteMask, [exactPat "Gerber_TopPasteMaskLayer.GTP".data]),
       (LayerType.TopCopper, [exactPat "Gerber_TopLayer.GTL".data]),
       (LayerType.BoardOutline, [exactPat "Gerber_BoardOutlineLayer.GKO".data]),
       (LayerType.InnerLayer 0, [jlcInnerPat])] := by rfl
  rw [hpats]
  have e1 : decide ("Gerber_InnerLayer".data ++
      (natDigitsStr n ++ '.' :: 'G' :: natDigitsStr n)
        = "Gerber_BottomSilkscreenLayer.GBO".data) = false :=
    decide_eq_false (gil_append_ne _ _ (by decide))
  have e2 : decide ("Gerber_InnerLayer".data ++
      (natDigitsStr n ++ '.' :: 'G' :: natDigitsStr n)
        = "Gerber_BottomSolderMaskLayer.GBS".data) = false :=
    decide_eq_false (gil_append_ne _ _ (by decide))
  have e3 : decide ("Gerber_InnerLayer".data ++
      (natDigitsStr n ++ '.' :: 'G' :: natDigitsStr n)
        = "Gerber_BottomPasteMaskLayer.GBP".data) = false :=
    decide_eq_false (gil_append_ne _ _ (by decide))
  have e4 : decide ("Gerber_InnerLayer".data ++
      (natDigitsStr n ++ '.' :: 'G' :: natDigitsStr n)
        = "Gerber_BottomLayer.GBL".data) = false :=
    decide_eq_false (gil_append_ne _ _ (by decide))
  have e5 : decide ("Gerber_InnerLayer".data ++
      (natDigitsStr n ++ '.' :: 'G' :: natDigitsStr n)
        = "Gerber_TopSilkscreenLayer.GTO".data) = false :=
    decide_eq_false (gil_append_ne _ _ (by decide))
  have e6 : decide ("Gerber_InnerLayer".data ++
      (natDigitsStr n ++ '.' :: 'G' :: natDigitsStr n)
        = "Gerber_TopSolderMaskLayer.GTS".data) = false :=
    decide_eq_false (gil_append_ne _ _ (by decide))
  have e7 : decide ("Gerber_InnerLayer".data ++
      (natDigitsStr n ++ '.' :: 'G' :: natDigitsStr n)
        = "Gerber_TopSolderMaskLayer.GTP".data) = false :=
    decide_eq_false (gil_append_ne _ _ (by decide))
  have e7b : decide ("Gerber_InnerLayer".data ++
      (natDigitsStr n ++ '.' :: 'G' :: natDigitsStr n)
        = "Gerber_TopPasteMaskLayer.GTP".data) = false :=
    decide_eq_false (gil_append_ne _ _ (by decide))
  have e8 : decide ("Gerber_InnerLayer".data ++
      (natDigitsStr n ++ '.' :: 'G' :: natDigitsStr n)
        = "Gerber_TopLayer.GTL".data) = false :=
    decide_eq_false (gil_append_ne _ _ (by decide))
  have e9 : decide ("Gerber_InnerLayer".data ++
      (natDigitsStr n ++ '.' :: 'G' :: natDigitsStr n)
        = "Gerber_BoardOutlineLayer.GKO".data) = false :=
    decide_eq_false (gil_append_ne _ _ (by decide))
  have hparse := jlcInnerParse_roundtrip n
  have hnum : jlcInnerPat.firstNumGroup ("Gerber_InnerLayer".data ++
      (natDigitsStr n ++ '.' :: 'G' :: natDigitsStr n)) = some n := by
    rw [jlcInnerPat]
    dsimp only
    rw [hparse]
    dsimp only
    rw [parseU32_natDigitsStr h32]
  have hmatch : jlcInnerPat.isMatch ("Gerber_InnerLayer".data ++
      (natDigitsStr n ++ '.' :: 'G' :: natDigitsStr n)) = true := by
    rw [jlcInnerPat]
    dsimp only
    rw [hparse]
    rfl
  simp only [matchLoop, tryPats, isDrillType, exactPat, e1, e2, e3, e4, e5, e6, e7, e7b, e8,
    e9, hmatch, Bool.false_eq_true, if_false, if_true, matchedResult,
    extract_inner_layer_number, hnum]

/-- Witness for C8 at n equal to 3. -/
theorem inner_layer_roundtrip_witness :
    1 ≤ 3 ∧ 3 < 2 ^ 32 ∧
    create_jlc_patterns.match_filename (to_jlc_filename (.InnerLayer 3))
      = some (.InnerLayer 3) :=
  ⟨by decide, by norm_num, inner_layer_roundtrip 3 (by decide) (by norm_num)⟩

/-! ## Gerber aperture-select prefixing (src/gerber.rs, claim C6)

GerberProcessor::convert_kicad_aperture_format splits the content on
newlines, passes through any line containing an aperture-definition
marker or an already-prefixed select code, and in every other line
rewrites each bare D-number-star token (2 to 4 digits) to the prefixed
form. Content is modelled at the line level (split and join on the
newline character are mutually inverse). The replace_all of the
D-token regex matches exactly at a D whose following maximal digit run
has length 2 to 4 and is immediately followed by the star. -/

/-- One token of a Gerber line as seen by the D-code regex scan: either a
plain character or a bare aperture-select token carrying its digits. -/
inductive Seg where
  | ch (c : Char)
  | dcode (ds : Str)
deriving DecidableEq, Repr

/-- The condition under which the D-code regex matches at a D: the
following maximal digit run has length 2 to 4 and the star follows it
immediately (greedy matching with backtracking can only succeed at the
full run, since any shorter candidate is followed by a digit, not the
star). -/
def dcodeAt (rest : Str) : Prop :=
  2 ≤ (rest.takeWhile Char.isDigit).length ∧ (rest.takeWhile Char.isDigit).length ≤ 4 ∧
    (rest.drop (rest.takeWhile Char.isDigit).length).head? = some '*'

instance (rest : Str) : Decidable (dcodeAt rest) := by
  unfold dcodeAt
  infer_instance

/-- The scan of the D-code regex over one line, decomposing it into plain
characters and bare select tokens, left to right, non-overlapping; the
fuel (always instantiated with the line length, which suffices) keeps the
recursion structural so concrete instances compute in the kernel. -/
def tokensFuel : Nat → Str → List Seg
  | 0, _ => []
  | _ + 1, [] => []
  | fuel + 1, c :: rest =>
    if c = 'D' then
      if dcodeAt rest then
        Seg.dcode (rest.takeWhile Char.isDigit)
          :: tokensFuel fuel (rest.drop ((rest.takeWhile Char.isDigit).length + 1))
      else Seg.ch c :: tokensFuel fuel rest
    else Seg.ch c :: tokensFuel fuel rest

/-- The token decomposition of one line under the D-code regex scan. -/
def lineTokens (s : Str) : List Seg := tokensFuel s.length s

/-- Rendering of a token list with each select token in its original bare
form. -/
def renderOrig : List Seg → Str
  | [] => []
  | Seg.ch c :: t => c :: renderOrig t
  | Seg.dcode ds :: t => 'D' :: (ds ++ '*' :: renderOrig t)

/-- Rendering of a token list with each select token in the prefixed
form. -/
def renderConv : List Seg → Str
  | [] => []
  | Seg.ch c :: t => c :: renderConv t
  | Seg.dcode ds :: t => 'G' :: '5' :: '4' :: 'D' :: (ds ++ '*' :: renderConv t)

/-- Fuel-driven form of the replace_all of the D-code regex with the G54
prefix on one line (the fuel is always the line length). -/
def replaceFuel : Nat → Str → Str
  | 0, _ => []
  | _ + 1, [] => []
  | fuel + 1, c :: rest =>
    if c = 'D' then
      if dcodeAt rest then
        'G' :: '5' :: '4' :: 'D' :: (rest.takeWhile Char.isDigit ++
          '*' :: replaceFuel fuel (rest.drop ((rest.takeWhile Char.isDigit).length + 1)))
      else c :: replaceFuel fuel rest
    else c :: replaceFuel fuel rest

/-- Models the replace_all of the D-code regex with the G54 prefix on one
line of convert_kicad_aperture_format. -/
def replaceDcodes (s : Str) : Str := replaceFuel s.length s

/-- The marker test of convert_kicad_aperture_format: lines containing an
aperture-definition marker or an already-prefixed select code are passed
through. -/
def hasApertureMarker (line : Str) : Bool :=
  containsL "%ADD".data line || containsL "G54D".data line

/-- The per-line body of the loop of
GerberProcessor::convert_kicad_aperture_format of src/gerber.rs. -/
def convert_kicad_line (line : Str) : Str :=
  if hasApertureMarker line then line else replaceDcodes line

/-- Models GerberProcessor::convert_kicad_aperture_format of
src/gerber.rs at the line level. -/
def convert_kicad_aperture_format (lines : List Str) : List Str :=
  lines.map convert_kicad_line

theorem after_takeWhile_not (p : Char → Bool) (l : Str) (c : Char) (t : Str)
    (h : l.drop (l.takeWhile p).length = c :: t) : p c = false := by
  induction l with
  | nil => simp at h
  | cons a l' ih =>
    by_cases ha : p a = true
    · rw [List.takeWhile_cons, if_pos ha] at h
      simp only [List.length_cons, List.drop_succ_cons] at h
      exact ih h
    · rw [List.takeWhile_cons, if_neg ha] at h
      simp only [List.length_nil, List.drop_zero] at h
      injection h with h1 _
      rw [h1] at ha
      simpa using ha

theorem takeWhile_drop_decomp (p : Char → Bool) (l : Str) :
    l.takeWhile p ++ l.drop (l.takeWhile p).length = l := by
  obtain ⟨t, ht⟩ := List.takeWhile_prefix (p := p) (l := l)
  have hdrop : l.drop (l.takeWhile p).length = t := by
    nth_rewrite 2 [← ht]
    exact List.drop_left _ _
  rw [hdrop, ht]

theorem dcode_tail_decomp (rest : Str) (h : dcodeAt rest) :
    rest = rest.takeWhile Char.isDigit ++
      '*' :: rest.drop ((rest.takeWhile Char.isDigit).length + 1) := by
  obtain ⟨_, _, hstar⟩ := h
  have hdecomp := takeWhile_drop_decomp Char.isDigit rest
  rcases hdrop : rest.drop (rest.takeWhile Char.isDigit).length with _ | ⟨c2, t2⟩
  · rw [hdrop] at hstar
    simp at hstar
  · rw [hdrop] at hstar
    simp only [List.head?_cons, Option.some_inj] at hstar
    subst hstar
    have htail : rest.drop ((rest.takeWhile Char.isDigit).length + 1) = t2 := by
      have h1 := List.drop_drop 1 (rest.takeWhile Char.isDigit).length rest
      rw [hdrop] at h1
      simp only [List.drop_succ_cons, List.drop_zero] at h1
      exact h1.symm
    rw [htail]
    rw [hdrop] at hdecomp
    exact hdecomp.symm

theorem renderOrig_tokensFuel (n : Nat) : ∀ (s : Str), s.length ≤ n →
    renderOrig (tokensFuel n s) = s := by
  induction n with
  | zero =>
    intro s hs
    have hnil : s = [] := List.length_eq_zero.mp (by omega)
    subst hnil
    rfl
  | succ n ih =>
    intro s hs
    match s with
    | [] => rfl
    | c :: rest =>
      by_cases hD : c = 'D'
      · by_cases hcond : dcodeAt rest
        · rw [tokensFuel, if_pos hD, if_pos hcond, renderOrig]
          have hlen : (rest.drop ((rest.takeWhile Char.isDigit).length + 1)).length ≤ n := by
            simp only [List.length_drop]
            simp only [List.length_cons] at hs
            omega
          rw [ih _ hlen, hD]
          rw [← dcode_tail_decomp rest hcond]
        · rw [tokensFuel, if_pos hD, if_neg hcond, renderOrig,
            ih rest (by simp only [List.length_cons] at hs; omega)]
      · rw [tokensFuel, if_neg hD, renderOrig,
          ih rest (by simp only [List.length_cons] at hs; omega)]

theorem renderOrig_lineTokens (s : Str) : renderOrig (lineTokens s) = s :=
  renderOrig_tokensFuel s.length s le_rfl

theorem replaceFuel_renderConv (n : Nat) : ∀ (s : Str), s.length ≤ n →
    replaceFuel n s = renderConv (tokensFuel n s) := by
  induction n with
  | zero =>
    intro s hs
    have hnil : s = [] := List.length_eq_zero.mp (by omega)
    subst hnil
    rfl
  | succ n ih =>
    intro s hs
    match s with
    | [] => rfl
    | c :: rest =>
      by_cases hD : c = 'D'
      · by_cases hcond : dcodeAt rest
        · rw [replaceFuel, tokensFuel, if_pos hD, if_pos hcond, if_pos hD, if_pos hcond,
            renderConv]
          have hlen : (rest.drop ((rest.takeWhile Char.isDigit).length + 1)).length ≤ n := by
            simp only [List.length_drop]
            simp only [List.length_cons] at hs
            omega
          rw [ih _ hlen]
        · rw [replaceFuel, tokensFuel, if_pos hD, if_neg hcond, if_pos hD, if_neg hcond,
            renderConv, ih rest (by simp only [List.length_cons] at hs; omega)]
      · rw [replaceFuel, tokensFuel, if_neg hD, if_neg hD, renderConv,
          ih rest (by simp only [List.length_cons] at hs; omega)]

theorem replaceDcodes_renderConv (s : Str) : replaceDcodes s = renderConv (lineTokens s) :=
  replaceFuel_renderConv s.length s le_rfl

/-- Claim C6: with aperture-select prefixing enabled, a line containing
an aperture-definition marker or an already-prefixed select code passes
through unchanged; every other line decomposes into plain characters and
bare 2-to-4-digit select tokens such that re-rendering the decomposition
reproduces the line exactly, and the converted line is the same
decomposition rendered with each bare token rewritten to the prefixed
form — so each bare token gains the prefix and no other text changes. -/
theorem convert_kicad_line_spec (line : Str) :
    (hasApertureMarker line = true → convert_kicad_line line = line) ∧
    (hasApertureMarker line = false →
      renderOrig (lineTokens line) = line ∧
      convert_kicad_line line = renderConv (lineTokens line)) := by
  constructor
  · intro hm
    rw [convert_kicad_line, if_pos hm]
  · intro hm
    refine ⟨renderOrig_lineTokens line, ?_⟩
    rw [convert_kicad_line, if_neg (by simp [hm]), replaceDcodes_renderConv]

/-- Witness for C6 on a concrete line with two bare select tokens. -/
theorem convert_kicad_line_spec_witness :
    hasApertureMarker "X01D10*Y02D303*".data = false ∧
    convert_kicad_line "X01D10*Y02D303*".data = "X01G54D10*Y02G54D303*".data :=
  ⟨by decide, by
    rw [((convert_kicad_line_spec "X01D10*Y02D303*".data).2 (by decide)).2]
    decide⟩

/-- The aperture-definition marker. -/
def addMarker : Str := "%ADD".data

/-- The prefixed select-code marker. -/
def g54Marker : Str := "G54D".data

/-! ## Aperture renumbering and fingerprint insertion (src/gerber.rs, claim C3)

GerberProcessor::renumber_apertures rewrites, line by line, a line
matching the anchored renumber regex (an aperture-definition or
prefixed-select marker, a greedy 2-to-4-digit capture, the rest of the
line): the captured number is kept when below the target or equal to the
reserved maximum, and incremented by one otherwise.
GerberProcessor::insert_aperture_definition inserts the fingerprint
definition before the first line opening the next aperture number, else
through the units/polarity fallback scan, else at the end. Content is
modelled at the line level. -/

/-- The capture attempt of the renumber regex for one alternation arm: a
required 4-character marker prefix, then the greedy 2-to-4-digit capture
(the first up-to-4 digits of the following run), then the rest. -/
def splitPrefixNum (pfx line : Str) : Option (Str × Str) :=
  if startsWithL pfx line then
    if 2 ≤ (((line.drop 4).takeWhile Char.isDigit).take 4).length then
      some ((((line.drop 4).takeWhile Char.isDigit).take 4),
        line.drop (4 + (((line.drop 4).takeWhile Char.isDigit).take 4).length))
    else none
  else none

/-- The per-line replacement closure of
GerberProcessor::renumber_apertures of src/gerber.rs. -/
def renumberLine (target maxN : Nat) (line : Str) : Str :=
  match splitPrefixNum addMarker line with
  | some (ds, rest) =>
    if digitsVal ds < target ∨ digitsVal ds = maxN then line
    else addMarker ++ (natDigitsStr (digitsVal ds + 1) ++ rest)
  | none =>
    match splitPrefixNum g54Marker line with
    | some (ds, rest) =>
      if digitsVal ds < target ∨ digitsVal ds = maxN then line
      else g54Marker ++ (natDigitsStr (digitsVal ds + 1) ++ rest)
    | none => line

/-- Models GerberProcessor::renumber_apertures of src/gerber.rs at the
line level (the regex is anchored per line and fires at most once per
line). -/
def renumber_apertures (lines : List Str) (target maxN : Nat) : List Str :=
  lines.map (renumberLine target maxN)

/-- The aperture number of an aperture-definition line, read with the
regex of GerberProcessor::analyze_apertures (the definition marker, a 2
to 4 digit number, then at least one non-digit character). -/
def defNumber? (line : Str) : Option Nat :=
  if startsWithL addMarker line then
    if 2 ≤ ((line.drop 4).takeWhile Char.isDigit).length ∧
        ((line.drop 4).takeWhile Char.isDigit).length ≤ 4 ∧
        (line.drop 4).drop ((line.drop 4).takeWhile Char.isDigit).length ≠ [] then
      some (digitsVal ((line.drop 4).takeWhile Char.isDigit))
    else none
  else none

/-- The aperture numbers of all definition lines, in order. -/
def defNumbers (lines : List Str) : List Nat := lines.filterMap defNumber?

/-- Truth of the match of the next-aperture regex on one line: the
definition marker followed by the decimal form of the number and one more
non-digit character; the captured character may be the newline, so a line
that is exactly the marker and number matches unless it closes the
content. -/
def lineOpensNumber (t1 : Nat) (line : Str) (isLast : Bool) : Bool :=
  if startsWithL (addMarker ++ natDigitsStr t1) line then
    match line.drop (4 + (natDigitsStr t1).length) with
    | [] => !isLast
    | c :: _ => !c.isDigit
  else false

/-- The first branch of insert_aperture_definition: insert the definition
immediately before the first line opening aperture number t1; none when
no line matches. -/
def insertBeforeNextAp (t1 : Nat) (defn : Str) : List Str → Option (List Str)
  | [] => none
  | l :: rest =>
    if lineOpensNumber t1 l (rest = []) then some (defn :: l :: rest)
    else
      match insertBeforeNextAp t1 defn rest with
      | some r => some (l :: r)
      | none => none

/-- The fallback scan of insert_aperture_definition: after the first
units line, insert before the first polarity or G-command line; when no
insertion happened, append at the end. -/
def fallbackLoop (defn : Str) : List Str → Bool → Bool → List Str
  | [], _, inserted => if inserted then [] else [defn]
  | l :: rest, mo_found, inserted =>
    if !mo_found && startsWithL "%MO".data l then
      l :: fallbackLoop defn rest true inserted
    else if mo_found && !inserted && (startsWithL "%LP".data l || startsWithL "G".data l) then
      defn :: l :: fallbackLoop defn rest mo_found true
    else
      l :: fallbackLoop defn rest mo_found inserted

/-- Models GerberProcessor::insert_aperture_definition of src/gerber.rs
at the line level. -/
def insert_aperture_definition (lines : List Str) (defn : Str) (target : Nat) : List Str :=
  match insertBeforeNextAp (target + 1) defn lines with
  | some r => r
  | none => fallbackLoop defn lines false false

/-- Well-formedness of one line for renumbering: a line carrying an
aperture marker does not continue with five or more digits (the greedy
4-digit capture would otherwise split a longer number and corrupt it). -/
def tokenRunOk (line : Str) : Bool :=
  if startsWithL addMarker line || startsWithL g54Marker line then
    ((line.drop 4).takeWhile Char.isDigit).length ≤ 4
  else true

/-- Counterexample to claim C3 as stated: on content whose definitions
carry the numbers 9998 and 9999, the renumbering step (at the target the
pipeline derives for this content) leaves both untouched and the
insertion step adds a second definition numbered 9999, so two definitions
share a number. -/
theorem renumber_insert_counterexample :
    ¬ (defNumbers (insert_aperture_definition
        (renumber_apertures ["%ADD9998C,0.1*%".data, "%ADD9999R,0.2X0.3*%".data] 9999 9999)
        "%ADD9999R,0.5*%".data 9999)).Nodup := by decide

theorem startsWithL_append_self (p x : Str) : startsWithL p (p ++ x) = true :=
  decide_eq_true (List.prefix_append p x)

theorem startsWithL_false_head (p l : Str) (c d : Char) (pt lt : Str) (hp : p = c :: pt)
    (hl : l = d :: lt) (hne : c ≠ d) : startsWithL p l = false := by
  subst hp
  subst hl
  rw [startsWithL, decide_eq_false_iff_not]
  intro hpre
  obtain ⟨t, ht⟩ := hpre
  simp only [List.cons_append] at ht
  injection ht with h1 _
  exact hne h1

theorem digitsVal_le_9999 (run : Str) (h4 : run.length ≤ 4)
    (hd : ∀ c ∈ run, c.isDigit = true) : digitsVal run ≤ 9999 := by
  have h1 := digitsVal_lt run hd
  have h2 : (10 : Nat) ^ run.length ≤ 10 ^ 4 := Nat.pow_le_pow_right (by omega) h4
  have h3 : (10 : Nat) ^ 4 = 10000 := by norm_num
  omega

theorem drop4_drop (line : Str) (k : Nat) : line.drop (4 + k) = (line.drop 4).drop k := by
  rw [List.drop_drop, Nat.add_comm]

theorem drop4_marker (m x : Str) (hm : m.length = 4) : (m ++ x).drop 4 = x := by
  rw [← hm]
  exact List.drop_left m x

theorem drop4k_marker (m x : Str) (hm : m.length = 4) (k : Nat) :
    (m ++ x).drop (4 + k) = x.drop k := by
  rw [drop4_drop, drop4_marker m x hm]

theorem defNumber?_marker_append (x : Str) :
    defNumber? (addMarker ++ x)
      = if 2 ≤ (x.takeWhile Char.isDigit).length ∧ (x.takeWhile Char.isDigit).length ≤ 4 ∧
            x.drop (x.takeWhile Char.isDigit).length ≠ [] then
          some (digitsVal (x.takeWhile Char.isDigit))
        else none := by
  rw [defNumber?, if_pos (startsWithL_append_self addMarker x), drop4_marker addMarker x rfl]

theorem defNumber?_not_marker (line : Str) (h : startsWithL addMarker line = false) :
    defNumber? line = none := by
  rw [defNumber?, if_neg (by rw [h]; simp)]

theorem defNumber?_g54_append (x : Str) : defNumber? (g54Marker ++ x) = none :=
  defNumber?_not_marker _ (startsWithL_false_head _ _ '%' 'G' _ ("54D".data ++ x) rfl rfl
    (by decide))

theorem splitPrefixNum_append (m x : Str) (hm : m.length = 4) :
    splitPrefixNum m (m ++ x)
      = if 2 ≤ ((x.takeWhile Char.isDigit).take 4).length then
          some ((x.takeWhile Char.isDigit).take 4,
            (m ++ x).drop (4 + ((x.takeWhile Char.isDigit).take 4).length))
        else none := by
  rw [splitPrefixNum, if_pos (startsWithL_append_self m x), drop4_marker m x hm]

theorem splitPrefixNum_none (m line : Str) (h : startsWithL m line = false) :
    splitPrefixNum m line = none := by
  rw [splitPrefixNum, if_neg (by rw [h]; simp)]

theorem defNumber?_renumberLine (t : Nat) (line : Str)
    (hwf : tokenRunOk line = true)
    (hr : ∀ n, defNumber? line = some n → 10 ≤ n ∧ n ≠ 9999) :
    defNumber? (renumberLine t 9999 line)
      = (defNumber? line).map (fun n => if n < t then n else n + 1) := by
  by_cases hA : startsWithL addMarker line = true
  · obtain ⟨tl0, htl0⟩ : addMarker <+: line := of_decide_eq_true hA
    subst htl0
    have hrun_le : (tl0.takeWhile Char.isDigit).length ≤ 4 := by
      rw [tokenRunOk, if_pos (by rw [startsWithL_append_self]; rfl),
        drop4_marker addMarker tl0 rfl] at hwf
      exact of_decide_eq_true hwf
    have hrun_digits : ∀ c ∈ tl0.takeWhile Char.isDigit, c.isDigit = true :=
      fun c hc => List.mem_takeWhile_imp hc
    have hval_le := digitsVal_le_9999 _ hrun_le hrun_digits
    have htake4 : (tl0.takeWhile Char.isDigit).take 4 = tl0.takeWhile Char.isDigit :=
      List.take_of_length_le hrun_le
    rw [renumberLine, splitPrefixNum_append addMarker tl0 rfl, htake4]
    by_cases h2 : 2 ≤ (tl0.takeWhile Char.isDigit).length
    · rw [if_pos h2]
      dsimp only
      rw [drop4k_marker addMarker tl0 rfl]
      rcases htail : tl0.drop (tl0.takeWhile Char.isDigit).length with _ | ⟨c, tl2⟩
      · -- no character after the digit run: the line is not a definition,
        -- and stays no definition after renumbering
        have hnone : defNumber? (addMarker ++ tl0) = none := by
          rw [defNumber?_marker_append tl0, if_neg (fun hcon => hcon.2.2 htail)]
        rw [hnone]
        by_cases hlt : digitsVal (tl0.takeWhile Char.isDigit) < t ∨
            digitsVal (tl0.takeWhile Char.isDigit) = 9999
        · rw [if_pos hlt, hnone]
          rfl
        · rw [if_neg hlt, List.append_nil, defNumber?_marker_append, if_neg]
          · rfl
          · intro hcon
            apply hcon.2.2
            rw [List.takeWhile_eq_self_iff.mpr (natDigitsStr_all_digits _)]
            exact List.drop_length _
      · -- a definition line: its number moves by at most one
        have hcnd : c.isDigit = false := after_takeWhile_not Char.isDigit tl0 c tl2 htail
        have hsome : defNumber? (addMarker ++ tl0)
            = some (digitsVal (tl0.takeWhile Char.isDigit)) := by
          rw [defNumber?_marker_append tl0, if_pos ⟨h2, hrun_le, by rw [htail]; simp⟩]
        have hbounds := hr _ hsome
        rw [hsome]
        by_cases hlt : digitsVal (tl0.takeWhile Char.isDigit) < t ∨
            digitsVal (tl0.takeWhile Char.isDigit) = 9999
        · have hltt : digitsVal (tl0.takeWhile Char.isDigit) < t := by
            rcases hlt with h | h
            · exact h
            · exact absurd h hbounds.2
          rw [if_pos hlt, hsome]
          simp only [Option.map_some']
          rw [if_pos hltt]
        · push_neg at hlt
          have hnds1_digits := natDigitsStr_all_digits
            (digitsVal (tl0.takeWhile Char.isDigit) + 1)
          have hnds1_ge2 : 2 ≤ (natDigitsStr (digitsVal (tl0.takeWhile Char.isDigit) + 1)).length :=
            natDigitsStr_length_ge2 (by omega)
          have hnds1_le4 :
              (natDigitsStr (digitsVal (tl0.takeWhile Char.isDigit) + 1)).length ≤ 4 := by
            refine natDigitsStr_length_le (by omega) ?_
            have h4 : (10 : Nat) ^ 4 = 10000 := by norm_num
            have := hbounds.2
            omega
          rw [if_neg (by push_neg; exact hlt), defNumber?_marker_append,
            takeWhile_all_append_not _ _ _ hnds1_digits hcnd, if_pos, natDigitsStr_val]
          · simp only [Option.map_some']
            rw [if_neg (by omega)]
          · refine ⟨hnds1_ge2, hnds1_le4, ?_⟩
            rw [List.drop_left]
            simp
    · -- fewer than two digits after the marker: no capture, no definition
      rw [if_neg h2]
      dsimp only
      have hG : startsWithL g54Marker (addMarker ++ tl0) = false :=
        startsWithL_false_head _ _ 'G' '%' _ ("ADD".data ++ tl0) rfl rfl (by decide)
      rw [splitPrefixNum_none g54Marker _ hG]
      have hnone : defNumber? (addMarker ++ tl0) = none := by
        rw [defNumber?_marker_append tl0, if_neg (fun hcon => h2 hcon.1)]
      rw [hnone]
      rfl
  · have hAf : startsWithL addMarker line = false := by
      rw [Bool.not_eq_true] at hA
      exact hA
    have hnone : defNumber? line = none := defNumber?_not_marker line hAf
    rw [hnone, renumberLine, splitPrefixNum_none addMarker line hAf]
    dsimp only
    by_cases hG : startsWithL g54Marker line = true
    · obtain ⟨tlG, htlG⟩ : g54Marker <+: line := of_decide_eq_true hG
      subst htlG
      rw [splitPrefixNum_append g54Marker tlG rfl]
      by_cases h2 : 2 ≤ ((tlG.takeWhile Char.isDigit).take 4).length
      · rw [if_pos h2]
        dsimp only
        by_cases hlt : digitsVal ((tlG.takeWhile Char.isDigit).take 4) < t ∨
            digitsVal ((tlG.takeWhile Char.isDigit).take 4) = 9999
        · rw [if_pos hlt, defNumber?_not_marker _ hAf]
          rfl
        · rw [if_neg hlt, defNumber?_g54_append]
          rfl
      · rw [if_neg h2]
        dsimp only
        rw [defNumber?_not_marker _ hAf]
        rfl
    · have hGf : startsWithL g54Marker line = false := by
        rw [Bool.not_eq_true] at hG
        exact hG
      rw [splitPrefixNum_none g54Marker line hGf]
      dsimp only
      rw [hnone]
      rfl

theorem defNumbers_renumber (lines : List Str) (t : Nat)
    (hwf : ∀ l ∈ lines, tokenRunOk l = true)
    (hr : ∀ n ∈ defNumbers lines, 10 ≤ n ∧ n ≠ 9999) :
    defNumbers (renumber_apertures lines t 9999)
      = (defNumbers lines).map (fun n => if n < t then n else n + 1) := by
  induction lines with
  | nil => rfl
  | cons l rest ih =>
    have hwl := hwf l (List.mem_cons_self l rest)
    have hrl : ∀ n, defNumber? l = some n → 10 ≤ n ∧ n ≠ 9999 := by
      intro n hn
      refine hr n ?_
      rw [defNumbers, List.filterMap_cons, hn]
      exact List.mem_cons_self _ _
    have hl := defNumber?_renumberLine t l hwl hrl
    have ihr := ih (fun x hx => hwf x (List.mem_cons_of_mem l hx))
      (fun n hn => hr n (by
        rw [defNumbers, List.filterMap_cons]
        rcases hd : defNumber? l with _ | m
        · exact hn
        · exact List.mem_cons_of_mem _ hn))
    rcases hd : defNumber? l with _ | n <;>
      rw [hd] at hl <;>
      simp only [defNumbers, renumber_apertures, List.map_cons, List.filterMap_cons, hl, hd,
        Option.map_none', Option.map_some'] <;>
      simp only [defNumbers, renumber_apertures] at ihr
    · exact ihr
    · rw [ihr]

theorem insertBeforeNextAp_decomp (t1 : Nat) (defn : Str) :
    ∀ (lines r : List Str), insertBeforeNextAp t1 defn lines = some r →
      ∃ l1 l2, lines = l1 ++ l2 ∧ r = l1 ++ defn :: l2 := by
  intro lines
  induction lines with
  | nil =>
    intro r h
    simp [insertBeforeNextAp] at h
  | cons l rest ih =>
    intro r h
    rw [insertBeforeNextAp] at h
    by_cases hm : lineOpensNumber t1 l (decide (rest = [])) = true
    · rw [if_pos hm] at h
      injection h with h
      exact ⟨[], l :: rest, rfl, by rw [← h]; rfl⟩
    · rw [if_neg hm] at h
      rcases hrec : insertBeforeNextAp t1 defn rest with _ | r2
      · rw [hrec] at h
        exact absurd h (by simp)
      · rw [hrec] at h
        dsimp only at h
        injection h with h
        obtain ⟨l1, l2, he, hr2⟩ := ih r2 hrec
        exact ⟨l :: l1, l2, by rw [he]; rfl, by rw [← h, hr2]; rfl⟩

theorem fallbackLoop_done (defn : Str) : ∀ (lines : List Str) (mo : Bool),
    fallbackLoop defn lines mo true = lines := by
  intro lines
  induction lines with
  | nil => intro mo; rfl
  | cons l rest ih =>
    intro mo
    rw [fallbackLoop]
    by_cases h1 : (!mo && startsWithL "%MO".data l) = true
    · rw [if_pos h1, ih]
    · rw [if_neg h1, if_neg (by simp), ih]

theorem fallbackLoop_insert (defn : Str) : ∀ (lines : List Str) (mo : Bool),
    ∃ l1 l2, lines = l1 ++ l2 ∧ fallbackLoop defn lines mo false = l1 ++ defn :: l2 := by
  intro lines
  induction lines with
  | nil =>
    intro mo
    exact ⟨[], [], rfl, rfl⟩
  | cons l rest ih =>
    intro mo
    rw [fallbackLoop]
    by_cases h1 : (!mo && startsWithL "%MO".data l) = true
    · rw [if_pos h1]
      obtain ⟨l1, l2, he, hf⟩ := ih true
      exact ⟨l :: l1, l2, by rw [he]; rfl, by rw [hf]; rfl⟩
    · rw [if_neg h1]
      by_cases h2 : (mo && !false && (startsWithL "%LP".data l || startsWithL "G".data l)) = true
      · rw [if_pos h2, fallbackLoop_done]
        exact ⟨[], l :: rest, rfl, rfl⟩
      · rw [if_neg h2]
        obtain ⟨l1, l2, he, hf⟩ := ih mo
        exact ⟨l :: l1, l2, by rw [he]; rfl, by rw [hf]; rfl⟩

theorem insert_aperture_decomp (lines : List Str) (defn : Str) (target : Nat) :
    ∃ l1 l2, lines = l1 ++ l2 ∧
      insert_aperture_definition lines defn target = l1 ++ defn :: l2 := by
  rw [insert_aperture_definition]
  rcases hI : insertBeforeNextAp (target + 1) defn lines with _ | r
  · dsimp only
    exact fallbackLoop_insert defn lines false
  · dsimp only
    exact insertBeforeNextAp_decomp (target + 1) defn lines r hI

theorem defNumbers_insert (l1 l2 : List Str) (defn : Str) (tn : Nat)
    (hdef : defNumber? defn = some tn) :
    (defNumbers (l1 ++ defn :: l2)).Perm (tn :: defNumbers (l1 ++ l2)) := by
  simp only [defNumbers, List.filterMap_append, List.filterMap_cons, hdef]
  exact List.perm_middle

theorem shiftFun_injective (t : Nat) :
    Function.Injective (fun n => if n < t then n else n + 1) := by
  intro a b hab
  dsimp only at hab
  by_cases ha : a < t <;> by_cases hb : b < t <;>
    simp only [ha, hb, if_true, if_false] at hab <;> omega

theorem t_notin_shift (t : Nat) (nums : List Nat) :
    t ∉ nums.map (fun n => if n < t then n else n + 1) := by
  intro hmem
  obtain ⟨n, _, he⟩ := List.mem_map.mp hmem
  by_cases h : n < t
  · rw [if_pos h] at he
    omega
  · rw [if_neg h] at he
    omega

/-- Claim C3 (amended): on content whose aperture-definition numbers are
pairwise distinct, at least 10, and none equal to the reserved maximum
9999, and whose marker lines carry digit runs of the capturable 2-to-4
length, the renumbering step maps every definition number to itself (when
below the target) or to its successor (never more), and after inserting
the fingerprint definition the definition numbers are exactly the target
plus the shifted originals, pairwise distinct. The unamended claim
(quantified over every Gerber content) is refuted by
renumber_insert_counterexample. -/
theorem renumber_insert_sound (lines : List Str) (t : Nat) (defn : Str)
    (hdef : defNumber? defn = some t)
    (hwf : ∀ l ∈ lines, tokenRunOk l = true)
    (hnd : (defNumbers lines).Nodup)
    (hr : ∀ n ∈ defNumbers lines, 10 ≤ n ∧ n ≠ 9999) :
    defNumbers (renumber_apertures lines t 9999)
      = (defNumbers lines).map (fun n => if n < t then n else n + 1) ∧
    (defNumbers (insert_aperture_definition (renumber_apertures lines t 9999) defn t)).Perm
      (t :: (defNumbers lines).map (fun n => if n < t then n else n + 1)) ∧
    (defNumbers (insert_aperture_definition (renumber_apertures lines t 9999) defn t)).Nodup := by
  have hmap := defNumbers_renumber lines t hwf hr
  obtain ⟨l1, l2, he, hres⟩ := insert_aperture_decomp (renumber_apertures lines t 9999) defn t
  have hperm : (defNumbers (insert_aperture_definition
      (renumber_apertures lines t 9999) defn t)).Perm
      (t :: defNumbers (renumber_apertures lines t 9999)) := by
    rw [hres, he]
    exact defNumbers_insert l1 l2 defn t hdef
  rw [hmap] at hperm
  refine ⟨hmap, hperm, ?_⟩
  have hnodup : (t :: (defNumbers lines).map (fun n => if n < t then n else n + 1)).Nodup := by
    rw [List.nodup_cons]
    exact ⟨t_notin_shift t _, hnd.map (shiftFun_injective t)⟩
  exact hperm.symm.nodup hnodup

/-- Witness for C3 (amended) at the two-aperture content of the spec
scenario, with target number 10: afterwards the definitions carry the
numbers 10 (the fingerprint), 11 and 12, pairwise distinct. -/
theorem renumber_insert_sound_witness :
    defNumber? "%ADD10C,0.42*%".data = some 10 ∧
    (defNumbers (insert_aperture_definition
        (renumber_apertures ["%ADD10C,0.1*%".data, "%ADD11R,0.2X0.3*%".data] 10 9999)
        "%ADD10C,0.42*%".data 10)).Nodup :=
  ⟨by decide,
    (renumber_insert_sound ["%ADD10C,0.1*%".data, "%ADD11R,0.2X0.3*%".data] 10
      "%ADD10C,0.42*%".data (by decide) (by decide) (by decide) (by decide)).2.2⟩

/-! ## Hash-aperture fingerprint (src/gerber.rs, claim C7)

GerberProcessor::generate_hash_aperture computes the fingerprint size as
a randomly drawn 2-decimal base, formatted, with a 2-digit suffix derived
from the MD5 of the content (prefixed by the fixed imported-document
marker when flagged) appended; a size parsing to zero degenerates to the
fixed minimum. The MD5 digest itself comes from an external crate and is
modelled as a function parameter; the two random draws (insertion slot
and base size) are explicit parameters, the base in its formatted form
(one digit, a dot, two digits, the 2-decimal formatting of a float in the
unit interval). -/

/-- The hash input domain: the imported-document marker bytes followed by
the content when flagged, else the content. -/
def hash_domain (imported : Bool) (content : Str) : Str :=
  if imported then "494d".data ++ content else content

/-- Value of one lowercase or uppercase hexadecimal digit. -/
def hexDigitVal (c : Char) : Option Nat :=
  if c.isDigit then some (c.toNat - 48)
  else if 'a' ≤ c ∧ c ≤ 'f' then some (c.toNat - 87)
  else if 'A' ≤ c ∧ c ≤ 'F' then some (c.toNat - 55)
  else none

/-- Hexadecimal value of a digit string. -/
def hexVal (s : Str) : Option Nat :=
  s.foldl (fun acc c =>
    match acc, hexDigitVal c with
    | some a, some d => some (a * 16 + d)
    | _, _ => none) (some 0)

/-- Models u32::from_str_radix(s, 16).unwrap_or(0). -/
def parseHexU32 (s : Str) : Nat :=
  if s = [] then 0
  else
    match hexVal s with
    | some v => if v < 2 ^ 32 then v else 0
    | none => 0

/-- The last two characters of a string; models the len-minus-2 slice of
the hash hex. -/
def lastTwo (s : Str) : Str := s.drop (s.length - 2)

/-- Two-digit zero-padded decimal formatting of a number below 100. -/
def twoDigits (m : Nat) : Str := if m < 10 then '0' :: natDigitsStr m else natDigitsStr m

/-- The 2-digit hash suffix of generate_hash_aperture: last hex byte of
the digest, reduced modulo 100, zero-padded. -/
def hash_suffix (md5hex : Str → Str) (imported : Bool) (content : Str) : Str :=
  twoDigits (parseHexU32 (lastTwo (md5hex (hash_domain imported content))) % 100)

/-- Models size_with_hash.parse::<f64>().unwrap_or(0.0) == 0.0 for the
strings this pipeline produces: a nonempty string of digits with at most
one dot and at least one digit parses to zero exactly when every digit is
zero; any other string fails the parse and is also read as zero. -/
def parsesToZero (s : Str) : Bool :=
  if s ≠ [] ∧ s.all (fun c => c.isDigit || decide (c = '.')) ∧
      (s.filter (fun c => decide (c = '.'))).length ≤ 1 ∧ s.any Char.isDigit then
    s.all (fun c => !c.isDigit || decide (c = '0'))
  else true

/-- The final fingerprint aperture size of generate_hash_aperture: the
formatted random base with the hash suffix appended, degraded to the
fixed minimum when the combination parses to zero. -/
def final_size (md5hex : Str → Str) (imported : Bool) (content : Str) (baseStr : Str) : Str :=
  if parsesToZero (baseStr ++ hash_suffix md5hex imported content) then "0.0100".data
  else baseStr ++ hash_suffix md5hex imported content

/-- Models struct ApertureInfo of src/gerber.rs. -/
structure ApertureInfo where
  definitions : List Str
  numbers : List Nat
  max_number : Nat

/-- Models struct HashAperture of src/gerber.rs. -/
structure HashAperture where
  definition : Str
  target_number : Nat
  hash : Str

/-- Models the replace (first occurrence) of the size regex (a comma
followed by a nonempty run of digits and dots) with the new size inside a
selected aperture definition line. -/
def subSizeInDef : Str → Str → Str
  | [], _ => []
  | c :: rest, size =>
    if c = ',' ∧ rest.takeWhile (fun x => x.isDigit || decide (x = '.')) ≠ [] then
      ',' :: (size ++ rest.drop (rest.takeWhile (fun x => x.isDigit || decide (x = '.'))).length)
    else c :: subSizeInDef rest size

/-- Models GerberProcessor::generate_hash_aperture of src/gerber.rs; r5
is the gen_range(0..5) draw for the insertion slot and baseStr the
formatted gen_range(0.0..1.0) draw (the parallel numbers and definitions
lists are indexed together, out-of-range reads defaulting like the
source's panic-free in-bounds accesses). -/
def generate_hash_aperture (md5hex : Str → Str) (imported : Bool) (content : Str)
    (info : ApertureInfo) (r5 : Nat) (baseStr : Str) : HashAperture :=
  let selection_index :=
    min (5 + r5) (if 1 < info.numbers.length then info.numbers.length - 1 else 0)
  let selection_count :=
    if info.numbers.length ≤ 5 then info.numbers.length else selection_index
  let selected_target : Option Str × Nat :=
    if 0 < selection_count ∧ selection_index < info.definitions.length then
      (info.definitions.get? selection_index, (info.numbers.get? selection_index).getD 0)
    else
      ((none : Option Str),
        min
          (if info.numbers = [] then 10
           else if info.numbers.length ≤ 5 then (info.numbers.getLast?.getD 0) + 1
           else 10)
          info.max_number)
  { definition :=
      match selected_target.1 with
      | some sel => subSizeInDef sel (final_size md5hex imported content baseStr)
      | none =>
        addMarker ++ (natDigitsStr selected_target.2 ++
          ("C,".data ++ (final_size md5hex imported content baseStr ++ "*%".data)))
    target_number := selected_target.2
    hash := md5hex (hash_domain imported content) }

/-- Shape of the formatted random base size: one digit, the dot, two
digits (2-decimal formatting of a float in the unit interval). -/
def wellFormedBase (b : Str) : Bool :=
  match b with
  | [a, d, x, y] => a.isDigit && decide (d = '.') && x.isDigit && y.isDigit
  | _ => false

theorem wellFormedBase_elim (b : Str) (h : wellFormedBase b = true) :
    ∃ a x y, b = [a, '.', x, y] ∧ a.isDigit = true ∧ x.isDigit = true ∧ y.isDigit = true := by
  match b with
  | [] => simp [wellFormedBase] at h
  | [_] => simp [wellFormedBase] at h
  | [_, _] => simp [wellFormedBase] at h
  | [_, _, _] => simp [wellFormedBase] at h
  | [a, d, x, y] =>
    simp only [wellFormedBase, Bool.and_eq_true, decide_eq_true_eq] at h
    exact ⟨a, x, y, by rw [h.1.1.2], h.1.1.1, h.1.2, h.2⟩
  | _ :: _ :: _ :: _ :: _ :: _ => simp [wellFormedBase] at h

theorem twoDigits_length (m : Nat) (h : m < 100) : (twoDigits m).length = 2 := by
  rw [twoDigits]
  by_cases hm : m < 10
  · rw [if_pos hm, natDigitsStr_unfold, if_pos hm]
    rfl
  · rw [if_neg hm]
    have h1 := natDigitsStr_length_ge2 (show 10 ≤ m by omega)
    have h2 : (natDigitsStr m).length ≤ 2 :=
      natDigitsStr_length_le (by omega) (by norm_num; omega)
    omega

theorem twoDigits_digits (m : Nat) : ∀ c ∈ twoDigits m, c.isDigit = true := by
  rw [twoDigits]
  by_cases hm : m < 10
  · rw [if_pos hm]
    intro c hc
    rcases List.mem_cons.mp hc with rfl | hc2
    · decide
    · exact natDigitsStr_all_digits m c hc2
  · rw [if_neg hm]
    exact natDigitsStr_all_digits m

theorem digit_dot_decide {c : Char} (h : c.isDigit = true) : decide (c = '.') = false := by
  apply decide_eq_false
  intro he
  subst he
  exact absurd h (by decide)

theorem length_two_all_zero (s : Str) (hlen : s.length = 2) (hz : ∀ c ∈ s, c = '0') :
    s = ['0', '0'] := by
  match s with
  | [c1, c2] => rw [hz c1 (by simp), hz c2 (by simp)]
  | [] => simp at hlen
  | [_] => simp at hlen
  | _ :: _ :: _ :: _ => simp at hlen

theorem lastTwo_final_size (md5hex : Str → Str) (imported : Bool) (content : Str) (b : Str)
    (hb : wellFormedBase b = true) :
    lastTwo (final_size md5hex imported content b) = hash_suffix md5hex imported content := by
  obtain ⟨a, x, y, hbe, ha, hx, hy⟩ := wellFormedBase_elim b hb
  subst hbe
  have hm100 : parseHexU32 (lastTwo (md5hex (hash_domain imported content))) % 100 < 100 :=
    Nat.mod_lt _ (by omega)
  have hlen : (hash_suffix md5hex imported content).length = 2 := by
    rw [hash_suffix]
    exact twoDigits_length _ hm100
  have hdig : ∀ c ∈ hash_suffix md5hex imported content, c.isDigit = true := by
    rw [hash_suffix]
    exact twoDigits_digits _
  rw [final_size]
  by_cases hz : parsesToZero ([a, '.', x, y] ++ hash_suffix md5hex imported content) = true
  · rw [if_pos hz]
    -- the degenerate size carries the suffix 00, and in the zero case the
    -- suffix was 00 to begin with
    have hcond : ([a, '.', x, y] ++ hash_suffix md5hex imported content) ≠ [] ∧
        ([a, '.', x, y] ++ hash_suffix md5hex imported content).all
          (fun c => c.isDigit || decide (c = '.')) = true ∧
        (([a, '.', x, y] ++ hash_suffix md5hex imported content).filter
          (fun c => decide (c = '.'))).length ≤ 1 ∧
        ([a, '.', x, y] ++ hash_suffix md5hex imported content).any Char.isDigit = true := by
      refine ⟨by simp, ?_, ?_, ?_⟩
      · rw [List.all_eq_true]
        intro c hc
        rcases List.mem_append.mp hc with hc1 | hc2
        · simp only [List.mem_cons, List.mem_singleton] at hc1
          rcases hc1 with rfl | rfl | rfl | rfl | hfalse
          · rw [ha]
            rfl
          · decide
          · rw [hx]
            rfl
          · rw [hy]
            rfl
          · simp at hfalse
        · rw [hdig c hc2]
          rfl
      · rw [List.filter_append]
        have hfb : List.filter (fun c => decide (c = '.')) [a, '.', x, y] = ['.'] := by
          simp [List.filter, digit_dot_decide ha, digit_dot_decide hx, digit_dot_decide hy]
        have hfs : List.filter (fun c => decide (c = '.'))
            (hash_suffix md5hex imported content) = [] := by
          rw [List.filter_eq_nil_iff]
          intro c hc
          rw [digit_dot_decide (hdig c hc)]
          simp
        rw [hfb, hfs]
        simp
      · rw [List.any_eq_true]
        exact ⟨a, by simp, ha⟩
    rw [parsesToZero, if_pos hcond, List.all_eq_true] at hz
    have hsufzero : ∀ c ∈ hash_suffix md5hex imported content, c = '0' := by
      intro c hc
      have := hz c (List.mem_append.mpr (Or.inr hc))
      rcases Bool.or_eq_true_iff.mp this with h1 | h2
      · rw [hdig c hc] at h1
        simp at h1
      · exact of_decide_eq_true h2
    rw [length_two_all_zero _ hlen hsufzero]
    rfl
  · rw [if_neg hz, lastTwo]
    have hlen6 : ([a, '.', x, y] ++ hash_suffix md5hex imported content).length = 6 := by
      simp [hlen]
    rw [hlen6]
    show ([a, '.', x, y] ++ hash_suffix md5hex imported content).drop 4 = _
    exact drop4_marker [a, '.', x, y] _ rfl

/-- Claim C7: across two fingerprinting runs over identical content and
identical imported-PCB flag, the 2-digit hash suffix embedded in the
fingerprint aperture size is identical — it equals the hash-derived
suffix (last hex byte of the digest of the optionally marker-prefixed
content, reduced modulo 100, zero-padded) regardless of the random base
draw, including when the zero-size degeneration replaces the size. -/
theorem hash_suffix_deterministic (md5hex : Str → Str) (imported : Bool) (content : Str)
    (b1 b2 : Str) (h1 : wellFormedBase b1 = true) (h2 : wellFormedBase b2 = true) :
    lastTwo (final_size md5hex imported content b1) = hash_suffix md5hex imported content ∧
    lastTwo (final_size md5hex imported content b2) = hash_suffix md5hex imported content ∧
    lastTwo (final_size md5hex imported content b1)
      = lastTwo (final_size md5hex imported content b2) := by
  have e1 := lastTwo_final_size md5hex imported content b1 h1
  have e2 := lastTwo_final_size md5hex imported content b2 h2
  exact ⟨e1, e2, by rw [e1, e2]⟩

/-- Witness for C7 with a constant digest function and two different
random bases. -/
theorem hash_suffix_deterministic_witness :
    wellFormedBase "0.42".data = true ∧ wellFormedBase "0.77".data = true ∧
    lastTwo (final_size (fun _ => "d41d8cd98f00b204e9800998ecf8427e".data) false "x".data
        "0.42".data)
      = lastTwo (final_size (fun _ => "d41d8cd98f00b204e9800998ecf8427e".data) false "x".data
        "0.77".data) :=
  ⟨by decide, by decide,
    (hash_suffix_deterministic (fun _ => "d41d8cd98f00b204e9800998ecf8427e".data) false
      "x".data "0.42".data "0.77".data (by decide) (by decide)).2.2⟩

/-! ## Conversion pipeline (src/converter.rs, claims C4 and C5)

The pipeline is modelled as pure functions over (filename, content)
pairs. The Gerber transformation (process_gerber_content, whose injected
header carries a wall-clock timestamp and whose fingerprint draws
randomness) is a function parameter, as is the per-content
missing-prefix test invoked by determine_g54_requirement (declared on the
Gerber processor; only its call site appears in the sources). -/

/-- Models Converter::should_process_gerber of src/converter.rs: the
negated matches! over the drill layer kinds. -/
def should_process_gerber (lt : LayerType) : Bool := !(isDrillType lt)

/-- Models Converter::process_single_file of src/converter.rs as the
written output (canonical name, content) of one discovered file; none
when no rule matches (the file is skipped). -/
def process_single_file (gerberTransform : Str → Bool → Str) (ps : EdaPatterns)
    (filename content : Str) (needsG54 : Bool) : Option (Str × Str) :=
  match ps.match_filename filename with
  | some lt =>
    some (to_jlc_filename lt,
      if should_process_gerber lt then gerberTransform content needsG54 else content)
  | none => none

/-- Models Converter::determine_g54_requirement of src/converter.rs:
true exactly when some file of the batch matches a non-drill layer kind
and its content is reported missing the select prefix. -/
def determine_g54_requirement (hasMissingG54 : Str → Bool) (ps : EdaPatterns)
    (files : List (Str × Str)) : Bool :=
  files.any (fun f =>
    match ps.match_filename f.1 with
    | some lt => should_process_gerber lt && hasMissingG54 f.2
    | none => false)

/-- Models Converter::process_files of src/converter.rs: the prefixing
flag is computed once, before any file is processed, and the same flag is
passed to every file; outputs are collected in input order. -/
def process_files (gerberTransform : Str → Bool → Str) (hasMissingG54 : Str → Bool)
    (ps : EdaPatterns) (files : List (Str × Str)) : List (Str × Str) :=
  files.filterMap (fun f =>
    process_single_file gerberTransform ps f.1 f.2
      (determine_g54_requirement hasMissingG54 ps files))

/-- Claim C4: a discovered file classified as a drill layer kind is
written byte-for-byte unchanged under the canonical drill filename — the
Gerber transformation is never applied to it (the conclusion holds for
every transformation function and does not mention it). -/
theorem drill_files_copied_verbatim (gerberTransform : Str → Bool → Str) (ps : EdaPatterns)
    (filename content : Str) (needsG54 : Bool) (lt : LayerType)
    (hm : ps.match_filename filename = some lt) (hd : isDrillType lt = true) :
    process_single_file gerberTransform ps filename content needsG54
      = some (to_jlc_filename lt, content) := by
  rw [process_single_file, hm]
  dsimp only
  rw [should_process_gerber, hd]
  rfl

/-- Witness for C4: a PTH drill file under the JLC dialect keeps its
content even under a transformation erasing everything. -/
theorem drill_files_copied_verbatim_witness :
    create_jlc_patterns.match_filename "Drill_PTH_Through.DRL".data = some .PthThrough ∧
    isDrillType .PthThrough = true ∧
    process_single_file (fun _ _ => []) create_jlc_patterns "Drill_PTH_Through.DRL".data
        "M48X1Y2".data true
      = some (to_jlc_filename .PthThrough, "M48X1Y2".data) :=
  ⟨by decide, by decide,
    drill_files_copied_verbatim (fun _ _ => []) create_jlc_patterns
      "Drill_PTH_Through.DRL".data "M48X1Y2".data true .PthThrough (by decide) (by decide)⟩

/-- Claim C5: the aperture-select prefixing decision is a single
batch-wide boolean, true exactly when some matched non-drill file of the
batch has a missing select prefix, and every matched non-drill file's
output is its content transformed with that one flag. -/
theorem g54_flag_batchwide (gerberTransform : Str → Bool → Str) (hasMissingG54 : Str → Bool)
    (ps : EdaPatterns) (files : List (Str × Str)) (fn content : Str) (lt : LayerType)
    (hmem : (fn, content) ∈ files)
    (hm : ps.match_filename fn = some lt)
    (hg : should_process_gerber lt = true) :
    (determine_g54_requirement hasMissingG54 ps files = true ↔
      ∃ f ∈ files, ∃ lt2, ps.match_filename f.1 = some lt2 ∧
        should_process_gerber lt2 = true ∧ hasMissingG54 f.2 = true) ∧
    (to_jlc_filename lt,
        gerberTransform content (determine_g54_requirement hasMissingG54 ps files))
      ∈ process_files gerberTransform hasMissingG54 ps files := by
  constructor
  · rw [determine_g54_requirement, List.any_eq_true]
    constructor
    · rintro ⟨f, hf, hcond⟩
      rcases hml : ps.match_filename f.1 with _ | lt2
      · rw [hml] at hcond
        simp at hcond
      · rw [hml] at hcond
        dsimp only at hcond
        rw [Bool.and_eq_true] at hcond
        exact ⟨f, hf, lt2, hml, hcond.1, hcond.2⟩
    · rintro ⟨f, hf, lt2, hml, hsp, hmg⟩
      refine ⟨f, hf, ?_⟩
      rw [hml]
      dsimp only
      rw [hsp, hmg]
      rfl
  · rw [process_files]
    apply List.mem_filterMap.mpr
    refine ⟨(fn, content), hmem, ?_⟩
    rw [process_single_file]
    dsimp only
    rw [hm]
    dsimp only
    rw [if_pos hg]

/-- Witness for C5 on a two-file KiCad batch whose first file is missing
the select prefix. -/
theorem g54_flag_batchwide_witness :
    (to_jlc_filename LayerType.TopCopper,
        (fun (c : Str) (b : Bool) => if b then 'P' :: c else c) "D10*".data
          (determine_g54_requirement (fun c => !(containsL "G54D".data c))
            create_kicad_patterns
            [("a-F_Cu.gbr".data, "D10*".data), ("b-B_Cu.gbr".data, "G54D11*".data)]))
      ∈ process_files (fun (c : Str) (b : Bool) => if b then 'P' :: c else c)
          (fun c => !(containsL "G54D".data c)) create_kicad_patterns
          [("a-F_Cu.gbr".data, "D10*".data), ("b-B_Cu.gbr".data, "G54D11*".data)] :=
  (g54_flag_batchwide (fun (c : Str) (b : Bool) => if b then 'P' :: c else c)
    (fun c => !(containsL "G54D".data c)) create_kicad_patterns
    [("a-F_Cu.gbr".data, "D10*".data), ("b-B_Cu.gbr".data, "G54D11*".data)]
    "a-F_Cu.gbr".data "D10*".data .TopCopper (by decide) (by decide) (by decide)).2

/-! ## Encrypted silkscreen artifact layout (src/colorful/encrypt.rs, claim C9)

Bytes are modelled as natural numbers. The cryptographic primitives come
from external crates (rsa, aes-gcm) and are modelled as function
parameters; their inverse properties at the used key material are
hypotheses of the theorem, while the byte layout of the artifact (wrapped
key, wrapped IV, ciphertext, in write order) comes from the source. -/

/-- Models struct KeyMaterial of src/colorful/encrypt.rs. -/
structure KeyMaterial where
  aes_key : List Nat
  aes_iv : List Nat
  enc_key : List Nat
  enc_iv : List Nat

/-- Models KeyMaterial::generate: the two fresh OsRng draws (explicit
arguments) are each wrapped with the embedded RSA public key via
RSA-OAEP-SHA256 (the function parameter rsaEnc). -/
def KeyMaterial.generate (rsaEnc : List Nat → List Nat) (aes_key aes_iv : List Nat) :
    KeyMaterial :=
  { aes_key := aes_key, aes_iv := aes_iv,
    enc_key := rsaEnc aes_key, enc_iv := rsaEnc aes_iv }

/-- Models encrypt_and_write of src/colorful/encrypt.rs: the byte stream
written to the artifact file, in write order — the wrapped key, the
wrapped IV, then the AES-128-GCM ciphertext of the payload with the
16-byte IV as nonce (aesEnc takes key, nonce, plaintext). -/
def encrypt_and_write (aesEnc : List Nat → List Nat → List Nat → List Nat)
    (svg : List Nat) (km : KeyMaterial) : List Nat :=
  km.enc_key ++ (km.enc_iv ++ aesEnc km.aes_key km.aes_iv svg)

theorem take_append_len {α : Type} (a b : List α) (n : Nat) (h : a.length = n) :
    (a ++ b).take n = a := by
  rw [← h]
  exact List.take_left a b

theorem drop_append_len {α : Type} (a b : List α) (n : Nat) (h : a.length = n) :
    (a ++ b).drop n = b := by
  rw [← h]
  exact List.drop_left a b

/-- Claim C9: the encrypted artifact file is exactly the RSA-wrapped AES
key, then the RSA-wrapped IV, then the AES-GCM ciphertext; with a
2048-bit RSA key each wrap is 256 bytes, so the header is 512 bytes, and
stripping it and decrypting the tail with the key and IV recovered via
the matching RSA private key yields the original plaintext
byte-for-byte. The RSA and AES primitives are external crates, given as
parameters with their inverse contracts as hypotheses. -/
theorem encrypt_layout_roundtrip
    (rsaEnc rsaDec : List Nat → List Nat)
    (aesEnc aesDec : List Nat → List Nat → List Nat → List Nat)
    (key iv svg : List Nat)
    (hklen : (rsaEnc key).length = 256) (hivlen : (rsaEnc iv).length = 256)
    (hrsaK : rsaDec (rsaEnc key) = key) (hrsaI : rsaDec (rsaEnc iv) = iv)
    (haes : aesDec key iv (aesEnc key iv svg) = svg) :
    encrypt_and_write aesEnc svg (KeyMaterial.generate rsaEnc key iv)
      = rsaEnc key ++ (rsaEnc iv ++ aesEnc key iv svg) ∧
    (encrypt_and_write aesEnc svg (KeyMaterial.generate rsaEnc key iv)).take 256
      = rsaEnc key ∧
    ((encrypt_and_write aesEnc svg (KeyMaterial.generate rsaEnc key iv)).drop 256).take 256
      = rsaEnc iv ∧
    (encrypt_and_write aesEnc svg (KeyMaterial.generate rsaEnc key iv)).drop 512
      = aesEnc key iv svg ∧
    aesDec
      (rsaDec ((encrypt_and_write aesEnc svg (KeyMaterial.generate rsaEnc key iv)).take 256))
      (rsaDec (((encrypt_and_write aesEnc svg
        (KeyMaterial.generate rsaEnc key iv)).drop 256).take 256))
      ((encrypt_and_write aesEnc svg (KeyMaterial.generate rsaEnc key iv)).drop 512) = svg := by
  have h1 : encrypt_and_write aesEnc svg (KeyMaterial.generate rsaEnc key iv)
      = rsaEnc key ++ (rsaEnc iv ++ aesEnc key iv svg) := rfl
  have htake : (encrypt_and_write aesEnc svg (KeyMaterial.generate rsaEnc key iv)).take 256
      = rsaEnc key := by
    rw [h1]
    exact take_append_len _ _ _ hklen
  have hdrop : (encrypt_and_write aesEnc svg (KeyMaterial.generate rsaEnc key iv)).drop 256
      = rsaEnc iv ++ aesEnc key iv svg := by
    rw [h1]
    exact drop_append_len _ _ _ hklen
  have hiv2 : ((encrypt_and_write aesEnc svg
      (KeyMaterial.generate rsaEnc key iv)).drop 256).take 256 = rsaEnc iv := by
    rw [hdrop]
    exact take_append_len _ _ _ hivlen
  have hct : (encrypt_and_write aesEnc svg (KeyMaterial.generate rsaEnc key iv)).drop 512
      = aesEnc key iv svg := by
    rw [h1, ← List.append_assoc]
    exact drop_append_len _ _ _ (by rw [List.length_append, hklen, hivlen])
  refine ⟨h1, htake, hiv2, hct, ?_⟩
  rw [htake, hiv2, hct, hrsaK, hrsaI, haes]

/-- Witness for C9 with toy primitives satisfying the contracts: padding
to 256 bytes as wrapping, truncation to 16 bytes as unwrapping, identity
as the AES pair. -/
theorem encrypt_layout_roundtrip_witness :
    ((fun (_ : List Nat) (_ : List Nat) (c : List Nat) => c)
        ((fun y : List Nat => y.take 16)
          ((encrypt_and_write (fun _ _ m => m) [7, 8, 9]
            (KeyMaterial.generate (fun x => x ++ List.replicate 240 0)
              (List.replicate 16 1) (List.replicate 16 2))).take 256))
        ((fun y : List Nat => y.take 16)
          (((encrypt_and_write (fun _ _ m => m) [7, 8, 9]
            (KeyMaterial.generate (fun x => x ++ List.replicate 240 0)
              (List.replicate 16 1) (List.replicate 16 2))).drop 256).take 256))
        ((encrypt_and_write (fun _ _ m => m) [7, 8, 9]
          (KeyMaterial.generate (fun x => x ++ List.replicate 240 0)
            (List.replicate 16 1) (List.replicate 16 2))).drop 512)) = [7, 8, 9] :=
  (encrypt_layout_roundtrip (fun x => x ++ List.replicate 240 0) (fun y => y.take 16)
    (fun _ _ m => m) (fun _ _ c => c) (List.replicate 16 1) (List.replicate 16 2) [7, 8, 9]
    (by decide) (by decide) (by decide) (by decide) (by decide)).2.2.2.2

end TransJlc
